import Mathlib

/-!
Verification of the response-extraction layer and pipeline orchestrator of the
AgenticAI repository (`src/sim_generator.py`), as a shallow embedding in Lean.

Strings are modelled as `List Char` (Python `str`); the wrappers taking Lean
`String` convert via `.data`.  JSON values are modelled by the mutual inductive
`Json`; JSON numbers are modelled as integers (float literals are treated as
parse failures by the model of `json.loads`; no claim depends on floats).
Python dicts are association lists with unique keys in insertion order, which
the model of `json.loads` maintains by last-wins insertion, exactly as Python
does.
-/

/-- Python whitespace recognised by `str.strip` / `str.lstrip` (ASCII range). -/
def pyWs (c : Char) : Bool :=
  c = ' ' || c = '\t' || c = '\n' || c = '\r' || c = '\x0b' || c = '\x0c'

/-- JSON whitespace recognised by Python's `json` tokenizer. -/
def jWs (c : Char) : Bool :=
  c = ' ' || c = '\t' || c = '\n' || c = '\r'

/-- Drop the characters satisfying `p` from the left end (`str.lstrip`). -/
def lstripBy (p : Char → Bool) (l : List Char) : List Char := l.dropWhile p

/-- Drop the characters satisfying `p` from the right end (`str.rstrip`). -/
def rstripBy (p : Char → Bool) (l : List Char) : List Char :=
  (l.reverse.dropWhile p).reverse

/-- Drop the characters satisfying `p` from both ends (`str.strip(chars)`). -/
def stripBy (p : Char → Bool) (l : List Char) : List Char :=
  rstripBy p (lstripBy p l)

/-- Python `text.strip()`. -/
def pyStrip (l : List Char) : List Char := stripBy pyWs l

/-- Python `text.lstrip()`. -/
def pyLstrip (l : List Char) : List Char := lstripBy pyWs l

/-- Python `text.strip("\x60")` (strip backticks from both ends). -/
def stripBackticks (l : List Char) : List Char := stripBy (fun c => c = '`') l

/-- Lower-case a character (ASCII, matching `str.lower` on the ASCII range). -/
def lowerCh (c : Char) : Char := c.toLower

/-- Python `text.lower()` (ASCII model). -/
def toLowerL (l : List Char) : List Char := l.map lowerCh

/-- Index of the first occurrence of `pat` in `l` (`str.find`, `None` for -1). -/
def findSub : List Char → List Char → Option Nat
  | l, pat =>
    if pat.isPrefixOf l then some 0
    else
      match l with
      | [] => none
      | _ :: t => (findSub t pat).map (· + 1)

/-- Index of the last occurrence of `pat` in `l` (`str.rfind`, `None` for -1). -/
def rfindSub : List Char → List Char → Option Nat
  | [], pat => if pat.isEmpty then some 0 else none
  | c :: t, pat =>
    match rfindSub t pat with
    | some j => some (j + 1)
    | none => if pat.isPrefixOf (c :: t) then some 0 else none

/-- Python `pat in l` (substring containment). -/
def containsSub (l pat : List Char) : Bool := (findSub l pat).isSome

/-- Python slice `l[a:b]` (for `0 ≤ a ≤ b`; out-of-range indices are clipped). -/
def sliceL (l : List Char) (a b : Nat) : List Char := (l.take b).drop a

/-- Python `l.replace(pat, rep, 1)`: replace the first occurrence only. -/
def replaceFirstL (l pat rep : List Char) : List Char :=
  match findSub l pat with
  | none => l
  | some i => l.take i ++ rep ++ l.drop (i + pat.length)

/-- Helper for `replaceAllL`, with fuel bounding the number of replacements. -/
def replaceAllAux : Nat → List Char → List Char → List Char → List Char
  | 0, l, _, _ => l
  | f + 1, l, pat, rep =>
    match findSub l pat with
    | none => l
    | some i => l.take i ++ rep ++ replaceAllAux f (l.drop (i + pat.length)) pat rep

/-- Python `l.replace(pat, rep)`: replace every occurrence, left to right
(used by the source only with nonempty `pat`, for which the fuel suffices). -/
def replaceAllL (l pat rep : List Char) : List Char :=
  replaceAllAux l.length l pat rep

mutual
/-- JSON values (Python objects produced by `json.loads`): numbers are
modelled as integers, mappings as key/value lists in insertion order. -/
inductive Json where
  | null : Json
  | bool (b : Bool) : Json
  | num (n : Int) : Json
  | str (s : List Char) : Json
  | arr (xs : JsonList) : Json
  | obj (kvs : JsonKVs) : Json
  deriving DecidableEq
/-- Lists of JSON values (Python lists). -/
inductive JsonList where
  | nil : JsonList
  | cons (hd : Json) (tl : JsonList) : JsonList
  deriving DecidableEq
/-- Key/value lists of JSON values (Python dicts, keys in insertion order). -/
inductive JsonKVs where
  | nil : JsonKVs
  | cons (k : List Char) (v : Json) (tl : JsonKVs) : JsonKVs
  deriving DecidableEq
end

/-- Dict lookup (`d[k]` / `k in d`): first matching key, if any. -/
def kvsGet : JsonKVs → List Char → Option Json
  | .nil, _ => none
  | .cons k0 v0 t, k => if k0 = k then some v0 else kvsGet t k

/-- Dict lookup with default (`d.get(k, dflt)`). -/
def kvsGetD (kvs : JsonKVs) (k : List Char) (dflt : Json) : Json :=
  (kvsGet kvs k).getD dflt

/-- Whether a key is present (`k in d`). -/
def kvsHasKey (kvs : JsonKVs) (k : List Char) : Bool := (kvsGet kvs k).isSome

/-- Dict update (`d[k] = v`): replace the value in place if the key exists,
else append — Python's insertion-order semantics. -/
def kvsUpd : JsonKVs → List Char → Json → JsonKVs
  | .nil, k, v => .cons k v .nil
  | .cons k0 v0 t, k, v =>
    if k0 = k then .cons k0 v t else .cons k0 v0 (kvsUpd t k v)

/-- Append one element to a `JsonList`. -/
def jlAppend : JsonList → Json → JsonList
  | .nil, v => .cons v .nil
  | .cons h t, v => .cons h (jlAppend t v)

/-- Python truthiness of a JSON value. -/
def pyTruthy : Json → Bool
  | .null => false
  | .bool b => b
  | .num n => n ≠ 0
  | .str s => !s.isEmpty
  | .arr .nil => false
  | .arr _ => true
  | .obj .nil => false
  | .obj _ => true

deriving instance DecidableEq for Except

/-- Decimal digit character for `n < 10`. -/
def digitCh (n : Nat) : Char := Char.ofNat ('0'.toNat + n)

/-- Lower-case hexadecimal digit character for `n < 16`. -/
def hexCh (n : Nat) : Char :=
  if n < 10 then Char.ofNat ('0'.toNat + n) else Char.ofNat ('a'.toNat + n - 10)

/-- Helper for `natDigits`; the fuel bounds the number of digits. -/
def natDigitsAux : Nat → Nat → List Char
  | 0, _ => []
  | f + 1, n =>
    if n < 10 then [digitCh n] else natDigitsAux f (n / 10) ++ [digitCh (n % 10)]

/-- Decimal digits of a natural number (Python `str(n)` for `n ≥ 0`). -/
def natDigits (n : Nat) : List Char := natDigitsAux (n + 1) n

/-- Python `str(n)` for an integer. -/
def intRepr (n : Int) : List Char :=
  if n < 0 then '-' :: natDigits (-n).toNat else natDigits n.toNat

/-- Escape one character as Python `json.dumps` does with
`ensure_ascii=False` (the mode the repository uses): quote, backslash and
control characters are escaped, everything else is emitted literally. -/
def escapeChar (c : Char) : List Char :=
  if c = '"' then ['\\', '"']
  else if c = '\\' then ['\\', '\\']
  else if c = '\n' then ['\\', 'n']
  else if c = '\t' then ['\\', 't']
  else if c = '\r' then ['\\', 'r']
  else if c = '\x08' then ['\\', 'b']
  else if c = '\x0c' then ['\\', 'f']
  else if c.toNat < 0x20 then ['\\', 'u', '0', '0', hexCh (c.toNat / 16), hexCh (c.toNat % 16)]
  else [c]

/-- Escape a string body as Python `json.dumps` does. -/
def escapeStr : List Char → List Char
  | [] => []
  | c :: t => escapeChar c ++ escapeStr t

mutual
/-- Model of Python `json.dumps(X)` with the default separators
`(", ", ": ")` and `ensure_ascii=False`, emitting to a character list. -/
def dumps : Json → List Char
  | .null => "null".data
  | .bool true => "true".data
  | .bool false => "false".data
  | .num n => intRepr n
  | .str s => '"' :: escapeStr s ++ ['"']
  | .arr xs => '[' :: dumpsList xs ++ [']']
  | .obj kvs => '{' :: dumpsKVs kvs ++ ['}']
/-- Array elements of `dumps`, joined by `", "`. -/
def dumpsList : JsonList → List Char
  | .nil => []
  | .cons h .nil => dumps h
  | .cons h (.cons h2 t) => dumps h ++ ',' :: ' ' :: dumpsList (.cons h2 t)
/-- Object members of `dumps`, `"key": value` joined by `", "`. -/
def dumpsKVs : JsonKVs → List Char
  | .nil => []
  | .cons k v .nil => '"' :: escapeStr k ++ '"' :: ':' :: ' ' :: dumps v
  | .cons k v (.cons k2 v2 t) =>
    '"' :: escapeStr k ++ '"' :: ':' :: ' ' :: dumps v ++
      ',' :: ' ' :: dumpsKVs (.cons k2 v2 t)
end

/-- Whether a character is a decimal digit. -/
def isDigitCh (c : Char) : Bool := '0' ≤ c && c ≤ '9'

/-- Numeric value of a hexadecimal digit character (written over code
points: 48–57 are `0`–`9`, 97–102 are `a`–`f`, 65–70 are `A`–`F`). -/
def hexVal (c : Char) : Option Nat :=
  let n := c.toNat
  if 48 ≤ n ∧ n ≤ 57 then some (n - 48)
  else if 97 ≤ n ∧ n ≤ 102 then some (n - 87)
  else if 65 ≤ n ∧ n ≤ 70 then some (n - 55)
  else none

/-- Numeric value of four hexadecimal digit characters. -/
def hex4 (a b c d : Char) : Option Nat :=
  match hexVal a, hexVal b, hexVal c, hexVal d with
  | some x, some y, some z, some w => some (((x * 16 + y) * 16 + z) * 16 + w)
  | _, _, _, _ => none

/-- The `\uXXXX` arm of `parseEsc`. -/
def parseEscU (a b c d : Char) (t : List Char) : Option (Char × List Char) :=
  match hex4 a b c d with
  | none => none
  | some v =>
    if v < 0xD800 ∨ 0xE000 ≤ v then some (Char.ofNat v, t)
    else if v < 0xDC00 then
      match t with
      | '\\' :: 'u' :: a2 :: b2 :: c2 :: d2 :: t3 =>
        match hex4 a2 b2 c2 d2 with
        | some w =>
          if 0xDC00 ≤ w ∧ w < 0xE000 then
            some (Char.ofNat (0x10000 + (v - 0xD800) * 0x400 + (w - 0xDC00)), t3)
          else none
        | none => none
      | _ => none
    else none

/-- Parse one escape sequence after a backslash, as Python's `json` string
scanner does.  `\uXXXX` surrogate pairs are combined; a lone surrogate (which
Python would keep as an unpaired surrogate in its `str`) has no `Char`
counterpart and makes the model fail — no input of any claim reaches it. -/
def parseEsc : List Char → Option (Char × List Char)
  | '"' :: t => some ('"', t)
  | '\\' :: t => some ('\\', t)
  | '/' :: t => some ('/', t)
  | 'b' :: t => some ('\x08', t)
  | 'f' :: t => some ('\x0c', t)
  | 'n' :: t => some ('\n', t)
  | 'r' :: t => some ('\r', t)
  | 't' :: t2 => some ('\t', t2)
  | 'u' :: a :: b :: c :: d :: t => parseEscU a b c d t
  | _ => none

/-- Parse the body of a JSON string after the opening quote, in Python's
strict mode (unescaped control characters are rejected).  The fuel is the
length of the input, which suffices since every step consumes a character. -/
def parseStrAux : Nat → List Char → Option (List Char × List Char)
  | 0, _ => none
  | _ + 1, [] => none
  | f + 1, c :: t =>
    if c = '"' then some ([], t)
    else if c = '\\' then
      match parseEsc t with
      | some (ch, r) => (parseStrAux f r).map (fun p => (ch :: p.1, p.2))
      | none => none
    else if c.toNat < 0x20 then none
    else (parseStrAux f t).map (fun p => (c :: p.1, p.2))

/-- Numeric value of a digit string, most significant first. -/
def digitsVal (ds : List Char) : Nat :=
  ds.foldl (fun a c => 10 * a + (c.toNat - '0'.toNat)) 0

/-- Parse a maximal nonempty run of decimal digits. -/
def parseDigits (l : List Char) : Option (Nat × List Char) :=
  if (l.takeWhile isDigitCh).isEmpty then none
  else some (digitsVal (l.takeWhile isDigitCh), l.dropWhile isDigitCh)

/-- Parse an unsigned JSON integer: leading zeros are rejected and a
following `.`, `e` or `E` (a float literal) makes the integer model fail. -/
def parseNumNat (l : List Char) : Option (Nat × List Char) :=
  match parseDigits l with
  | none => none
  | some (n, rest) =>
    if 1 < (l.takeWhile isDigitCh).length && l.head? = some '0' then none
    else
      match rest with
      | c :: _ => if c = '.' || c = 'e' || c = 'E' then none else some (n, rest)
      | [] => some (n, rest)

/-- Parse a JSON number (integers only; see `parseNumNat`). -/
def parseNum (l : List Char) : Option (Json × List Char) :=
  match l with
  | '-' :: t => (parseNumNat t).map (fun p => (Json.num (-(p.1 : Int)), p.2))
  | _ => (parseNumNat l).map (fun p => (Json.num (p.1 : Int), p.2))

/-- Python `l.dropWhile` for JSON whitespace. -/
def skipWs (l : List Char) : List Char := l.dropWhile jWs

mutual
/-- Parse one JSON value (model of Python's `json` scanner).  The fuel only
guarantees totality; `json_loads` supplies enough for any input. -/
def parseVal : Nat → List Char → Option (Json × List Char)
  | 0, _ => none
  | f + 1, l =>
    match skipWs l with
    | [] => none
    | c :: t =>
      if c = '{' then
        match skipWs t with
        | '}' :: r => some (.obj .nil, r)
        | t2 => parseMembers f t2 .nil
      else if c = '[' then
        match skipWs t with
        | ']' :: r => some (.arr .nil, r)
        | t2 => parseItems f t2 .nil
      else if c = '"' then (parseStrAux t.length t).map (fun p => (Json.str p.1, p.2))
      else if c = 't' then
        match t with
        | 'r' :: 'u' :: 'e' :: r => some (.bool true, r)
        | _ => none
      else if c = 'f' then
        match t with
        | 'a' :: 'l' :: 's' :: 'e' :: r => some (.bool false, r)
        | _ => none
      else if c = 'n' then
        match t with
        | 'u' :: 'l' :: 'l' :: r => some (.null, r)
        | _ => none
      else if c = '-' || isDigitCh c then parseNum (c :: t)
      else none
/-- Parse the members of a nonempty JSON object, accumulating into a dict
with Python's last-wins update.  Expects the input already whitespace-skipped
and positioned at the opening quote of a key. -/
def parseMembers : Nat → List Char → JsonKVs → Option (Json × List Char)
  | 0, _, _ => none
  | f + 1, l, acc =>
    match l with
    | '"' :: t =>
      match parseStrAux t.length t with
      | some (k, r1) =>
        match skipWs r1 with
        | ':' :: r2 =>
          match parseVal f r2 with
          | some (v, r3) =>
            match skipWs r3 with
            | '}' :: r4 => some (.obj (kvsUpd acc k v), r4)
            | ',' :: r4 => parseMembers f (skipWs r4) (kvsUpd acc k v)
            | _ => none
          | none => none
        | _ => none
      | none => none
    | _ => none
/-- Parse the items of a nonempty JSON array. -/
def parseItems : Nat → List Char → JsonList → Option (Json × List Char)
  | 0, _, _ => none
  | f + 1, l, acc =>
    match parseVal f l with
    | some (v, r) =>
      match skipWs r with
      | ']' :: r2 => some (.arr (jlAppend acc v), r2)
      | ',' :: r2 => parseItems f r2 (jlAppend acc v)
      | _ => none
    | none => none
end

/-- Model of Python `json.loads`: parse one value and require only
whitespace to remain.  `none` models `json.JSONDecodeError`. -/
def json_loads (l : List Char) : Option Json :=
  match parseVal (2 * l.length + 2) l with
  | some (j, rest) => if (skipWs rest).isEmpty then some j else none
  | none => none

/-- Consume the inner group `\x7b[^\x7b\x7d]*\x7d` after its opening brace:
scan to the next `\x7d`, failing if a `\x7b` or the end comes first.
Returns the remainder after the closing brace. -/
def scanInner : List Char → Option (List Char)
  | [] => none
  | c :: t => if c = '}' then some t else if c = '{' then none else scanInner t

/-- Greedily consume `(?:[^\x7b\x7d]|(?:\x7b[^\x7b\x7d]*\x7d))*`: stop at the
first `\x7d` at nesting level zero (returning the remainder from it), fail on
a deeper `\x7b` or on running out of input.  Fuel is the input length plus
one, enough since every step consumes at least one character. -/
def scanBody : Nat → List Char → Option (List Char)
  | 0, _ => none
  | f + 1, l =>
    match l with
    | [] => none
    | c :: t =>
      if c = '}' then some l
      else if c = '{' then
        match scanInner t with
        | some r => scanBody f r
        | none => none
      else scanBody f t

/-- The match of `re.search(r'\x7b(?:[^\x7b\x7d]|(?:\x7b[^\x7b\x7d]*\x7d))*\x7d', ...)`
anchored at the head of `l`, if any: an opening brace, a greedy body with one
level of nested-brace tolerance, and a closing brace. -/
def reMatchAt (l : List Char) : Option (List Char) :=
  match l with
  | '{' :: t =>
    match scanBody (t.length + 1) t with
    | some ('}' :: r) => some (l.take (l.length - r.length))
    | _ => none
  | _ => none

/-- Model of `re.search` for the brace pattern above: the leftmost position
admitting a match, together with the matched span. -/
def reSearch : List Char → Option (Nat × List Char)
  | [] => none
  | c :: t =>
    match reMatchAt (c :: t) with
    | some m => some (0, m)
    | none => (reSearch t).map (fun p => (p.1 + 1, p.2))

/-- Error taxonomy of the extractor: the three `ValueError` sites of
`safe_json_parse`, each carrying the snippet embedded in its message. -/
inductive ExtractErr where
  | emptyResponse : ExtractErr
  | noJsonFound (snippet : List Char) : ExtractErr
  | jsonDecodeError (snippet : List Char) : ExtractErr
  deriving DecidableEq

/-- Result of `safe_json_parse`, tagged by return site: `structured j` is the
dict returned by `json.loads`, and `document s` is the literal dict
`\x7b"index.html": s\x7d` built around text recognised as HTML. -/
inductive Payload where
  | structured (j : Json) : Payload
  | document (s : List Char) : Payload
  deriving DecidableEq

/-- The dict value a `Payload` stands for at the orchestrator's use sites. -/
def payloadDict : Payload → Json
  | .structured j => j
  | .document s => .obj (.cons "index.html".data (.str s) .nil)

/-- Markdown fence removal shared by `safe_json_parse` (lines 49–54) and
`extract_html_from_response` (lines 102–107): if the text starts with three
backticks, strip backticks and whitespace from both ends and drop a leading
`json` or `html` tag (matched case-insensitively) plus following whitespace. -/
def fenceStrip (text : List Char) : List Char :=
  if ("```".data).isPrefixOf text then
    let t := pyStrip (stripBackticks text)
    if ("json".data).isPrefixOf (toLowerL t) then pyLstrip (t.drop 4)
    else if ("html".data).isPrefixOf (toLowerL t) then pyLstrip (t.drop 4)
    else t
  else text

/-- The check `text.lstrip().lower().startswith(("<!doctype", "<html"))`
guarding the raw-HTML early return in both extractor functions. -/
def startsHtmlDoc (text : List Char) : Bool :=
  ("<!doctype".data).isPrefixOf (toLowerL (pyLstrip text)) ||
    ("<html".data).isPrefixOf (toLowerL (pyLstrip text))

/-- The snippet `s[:300].replace("\n", "\\n")` carried by extractor errors. -/
def mkSnippet (l : List Char) : List Char :=
  replaceAllL (l.take 300) ['\n'] ['\\', 'n']

/-- The HTML-marker test of line 84: whether the lower-cased candidate
contains `<html`, `<!doctype` or `<style`. -/
def hasHtmlMarker (json_str : List Char) : Bool :=
  containsSub (toLowerL json_str) "<html".data ||
    containsSub (toLowerL json_str) "<!doctype".data ||
    containsSub (toLowerL json_str) "<style".data

/-- Lines 79–89 of `safe_json_parse`: parse the candidate span as JSON; on
failure reinterpret it as a `Document` when it contains an HTML marker, else
fail with `jsonDecodeError` and a bounded snippet. -/
def decodeCandidate (json_str : List Char) : Except ExtractErr Payload :=
  match json_loads json_str with
  | some j => .ok (.structured j)
  | none =>
    if hasHtmlMarker json_str then .ok (.document json_str)
    else .error (.jsonDecodeError (mkSnippet json_str))

/-- Lines 69–75 of `safe_json_parse`: no candidate span was found; wrap the
whole text as a `Document` if it looks like HTML, else fail. -/
def htmlWrapOrFail (text : List Char) : Except ExtractErr Payload :=
  if containsSub (toLowerL text) "<html".data ||
      containsSub (toLowerL text) "<!doctype".data then
    .ok (.document text)
  else .error (.noJsonFound (mkSnippet text))

/-- Model of `safe_json_parse` (lines 27–89) on already-string content: strip,
fail on empty, remove a markdown fence, early-return raw HTML, then locate a
candidate JSON span (regex search, falling back to first-`\x7b`-to-last-`\x7d`)
and decode it.  The list-of-parts normalisation of lines 29–41 happens before
the string stage and is not modelled (no claim concerns it). -/
def safe_json_parse (raw : List Char) : Except ExtractErr Payload :=
  let text0 := pyStrip raw
  if text0.isEmpty then .error .emptyResponse
  else
    let text := fenceStrip text0
    if startsHtmlDoc text then .ok (.document text)
    else
      match reSearch text with
      | some (_, m) => decodeCandidate m
      | none =>
        match findSub text ['{'], rfindSub text ['}'] with
        | some fb, some lb =>
          if fb < lb then decodeCandidate (sliceL text fb (lb + 1))
          else htmlWrapOrFail text
        | _, _ => htmlWrapOrFail text

/-- Result of `extract_html_from_response`: the function returns a string
unless it returns `data["index.html"]` for a non-string value (`nonstr`),
which makes the callers' string operations raise `TypeError` later. -/
inductive HtmlOut where
  | str (s : List Char) : HtmlOut
  | nonstr (v : Json) : HtmlOut
  deriving DecidableEq

/-- Lines 121–144 of `extract_html_from_response`: locate a doctype
declaration, else an opening `<html>` tag; clip at the last `</html>` if one
exists; return the text unchanged when no marker is found. -/
def findHtmlSection (text : List Char) : List Char :=
  let lower := toLowerL text
  match findSub lower "<!doctype".data with
  | some i =>
    match rfindSub lower "</html>".data with
    | some e => sliceL text i (e + 7)
    | none => text.drop i
  | none =>
    match findSub lower "<html".data with
    | some i =>
      match rfindSub lower "</html>".data with
      | some e => sliceL text i (e + 7)
      | none => text.drop i
    | none => text

/-- Model of `extract_html_from_response` (lines 92–144): strip, remove a
markdown fence, return raw HTML as-is, else try `json.loads` and extract the
`index.html` member, else scan for an embedded HTML section. -/
def extract_html_from_response (response_content : List Char) : HtmlOut :=
  let text0 := pyStrip response_content
  let text := fenceStrip text0
  if startsHtmlDoc text then .str text
  else
    match json_loads text with
    | some (.obj kvs) =>
      match kvsGet kvs "index.html".data with
      | some (.str s) => .str s
      | some v => .nonstr v
      | none => .str (findHtmlSection text)
    | _ => .str (findHtmlSection text)

/-- Model of `check_minimum_requirements` (lines 147–168): the list of issue
messages for a single-file HTML document. -/
def check_minimum_requirements (html : List Char) : List String :=
  (if !containsSub html "<!DOCTYPE html>".data &&
      !containsSub html "<!doctype html>".data then
    ["Missing DOCTYPE declaration."] else []) ++
  (if !containsSub html "<meta name=\"viewport\"".data then
    ["Missing viewport meta tag for mobile."] else []) ++
  (if !(containsSub html "<input".data || containsSub html "<button".data ||
        containsSub html "<select".data || containsSub html "onclick".data ||
        containsSub html "addEventListener".data) then
    ["No interactive controls found."] else []) ++
  (if !containsSub html "<style>".data && !containsSub html "style=".data then
    ["No styling found (inline or embedded)."] else [])

/-- The viewport meta tag inserted by `enforce_minimum_requirements`. -/
def viewportTag : List Char :=
  "<meta name=\"viewport\" content=\"width=device-width, initial-scale=1.0\">".data

/-- Model of `enforce_minimum_requirements` (lines 171–196): insert a
viewport meta tag after `<head>` (or a fresh head after `<html>`) when
missing, then prepend a DOCTYPE when missing.  Both `not in` checks test the
lower-cased original input, exactly as the source computes `lower` once. -/
def enforce_minimum_requirements (html : List Char) : List Char :=
  let lower := toLowerL html
  let html1 :=
    if !containsSub lower "<meta name=\"viewport\"".data then
      if containsSub lower "<head>".data then
        replaceFirstL html "<head>".data ("<head>\n    ".data ++ viewportTag)
      else if containsSub html "<HEAD>".data then
        replaceAllL html "<HEAD>".data ("<HEAD>\n    ".data ++ viewportTag)
      else if containsSub lower "<html>".data then
        replaceFirstL html "<html>".data
          ("<html>\n<head>\n    ".data ++ viewportTag ++ "\n</head>".data)
      else if containsSub html "<HTML>".data then
        replaceFirstL html "<HTML>".data
          ("<HTML>\n<head>\n    ".data ++ viewportTag ++ "\n</head>".data)
      else html
    else html
  if !containsSub lower "<!doctype".data then "<!DOCTYPE html>\n".data ++ html1
  else html1

mutual
/-- Python `repr` of a JSON value, as used for elements inside containers by
`str`.  String escaping inside `repr` is simplified to plain single quotes;
no claim observes the rendering of exotic container-valued spec fields. -/
def pyRepr : Json → List Char
  | .null => "None".data
  | .bool true => "True".data
  | .bool false => "False".data
  | .num n => intRepr n
  | .str s => Char.ofNat 39 :: s ++ [Char.ofNat 39]
  | .arr xs => '[' :: pyReprList xs ++ [']']
  | .obj kvs => '{' :: pyReprKVs kvs ++ ['}']
/-- Elements of `pyRepr` for lists, joined by `", "`. -/
def pyReprList : JsonList → List Char
  | .nil => []
  | .cons h .nil => pyRepr h
  | .cons h (.cons h2 t) => pyRepr h ++ ',' :: ' ' :: pyReprList (.cons h2 t)
/-- Members of `pyRepr` for dicts, joined by `", "`. -/
def pyReprKVs : JsonKVs → List Char
  | .nil => []
  | .cons k v .nil => Char.ofNat 39 :: k ++ Char.ofNat 39 :: ':' :: ' ' :: pyRepr v
  | .cons k v (.cons k2 v2 t) =>
    Char.ofNat 39 :: k ++ Char.ofNat 39 :: ':' :: ' ' :: pyRepr v ++
      ',' :: ' ' :: pyReprKVs (.cons k2 v2 t)
end

/-- Python `str()` of a JSON value (a string renders as itself; anything
else as its `repr`). -/
def pyStr : Json → List Char
  | .str s => s
  | j => pyRepr j

/-- Map a function over a `JsonList`. -/
def jlMap (f : Json → Json) : JsonList → JsonList
  | .nil => .nil
  | .cons h t => .cons (f h) (jlMap f t)

/-- Lookup `v["name"]` on a simulation-variable dict (always present on the
dicts built below, mirroring `v['name']` in the source). -/
def varName (v : Json) : Json :=
  match v with
  | .obj kvs => kvsGetD kvs "name".data .null
  | _ => .null

/-- The `default_vars` literal of lines 208–211. -/
def defaultVarsGeneric : JsonList :=
  .cons (.obj (.cons "name".data (.str "Intensity".data)
    (.cons "min".data (.num 0) (.cons "max".data (.num 100)
    (.cons "default".data (.num 50) (.cons "unit".data (.str "%".data) .nil))))))
  (.cons (.obj (.cons "name".data (.str "Time".data)
    (.cons "min".data (.num 1) (.cons "max".data (.num 60)
    (.cons "default".data (.num 10) (.cons "unit".data (.str "s".data) .nil))))))
  .nil)

/-- The heat/temperature `default_vars` literal of lines 216–219. -/
def defaultVarsHeat : JsonList :=
  .cons (.obj (.cons "name".data (.str "Temperature".data)
    (.cons "min".data (.num 0) (.cons "max".data (.num 100)
    (.cons "default".data (.num 25) (.cons "unit".data (.str "°C".data) .nil))))))
  (.cons (.obj (.cons "name".data (.str "Material".data)
    (.cons "min".data (.num 1) (.cons "max".data (.num 3)
    (.cons "default".data (.num 1) (.cons "unit".data (.str "choice".data) .nil))))))
  .nil)

/-- Model of `generate_default_blueprint_from_spec` (lines 199–256).  The
`Except` result captures that `spec.get` raises (`AttributeError`) when the
loaded spec is not a dict; for a dict it always succeeds. -/
def generate_default_blueprint_from_spec (spec : Json) : Except String Json :=
  match spec with
  | .obj kvs =>
    let concept := kvsGetD kvs "Concept".data (.str "Unknown Concept".data)
    let short_desc := kvsGetD kvs "Description".data
      (.str ("A simple simulation about ".data ++ pyStr concept ++ ".".data))
    let topic_lower := toLowerL (pyStr concept)
    let default_vars :=
      if containsSub topic_lower "heat".data ||
          containsSub topic_lower "temperature".data then defaultVarsHeat
      else defaultVarsGeneric
    .ok (.obj
      (.cons "learning_objectives".data (.arr
        (.cons (.str ("Understand what ".data ++ pyStr concept ++ " means.".data))
        (.cons (.str "See how changing one variable affects the outcome.".data)
        (.cons (.str "Learn to record simple observations.".data) .nil))))
      (.cons "key_concepts".data (.arr
        (.cons concept
        (.cons (.str "cause and effect".data)
        (.cons (.str "variables and observation".data) .nil))))
      (.cons "variables_to_simulate".data (.arr default_vars)
      (.cons "user_interactions".data (.obj
        (.cons "sliders".data (.arr (jlMap
          (fun v => .str ("Slider to set ".data ++ pyStr (varName v))) default_vars))
        (.cons "buttons".data (.arr
          (.cons (.str "Start simulation".data)
          (.cons (.str "Reset to defaults".data) .nil)))
        (.cons "other".data (.str "Tap to pause or touch-drag small objects".data)
        .nil))))
      (.cons "simulation_logic".data (.arr
        (.cons (.str "Step 1: Read current values of controls.".data)
        (.cons (.str "Step 2: Update the visual area to reflect the new values.".data)
        (.cons (.str "Step 3: If Start pressed, animate changes over time.".data) .nil))))
      (.cons "mobile_ui_plan".data (.obj
        (.cons "layout".data (.str "vertical single column".data)
        (.cons "sections".data (.arr
          (.cons (.str "Header".data)
          (.cons (.str "Instructions".data)
          (.cons (.str "Simulation area".data)
          (.cons (.str "Controls".data)
          (.cons (.str "Questions".data) .nil))))))
        (.cons "touch_targets".data (.str "minimum 44px".data) .nil))))
      (.cons "misconceptions_to_address".data (.arr
        (.cons (.str "More of something always means faster change (not always true).".data)
        (.cons (.str "If two materials look the same they behave the same (not always true).".data)
        .nil)))
      (.cons "text_instructions_for_students".data
        (.str ((pyStr short_desc).take 200 ++
          " Use the sliders and Start button to explore.".data))
      (.cons "file_target".data (.str "single_file_html".data)
      (.cons "safety_constraints".data (.arr
        (.cons (.str "No real heat sources shown; keep examples conceptual.".data) .nil))
      .nil)))))))))))
  | _ => .error "AttributeError"

/-- The environment one run of `generate_simulation_with_checks` interacts
with: the result of loading the spec file, whether all six chain objects have
an `invoke` method, and the content string produced (or exception raised) by
each chain invocation.  The planner may be invoked twice, hence two slots;
responses are environment-given and independent of request contents, so the
request dictionaries are not materialised. -/
structure Env where
  load_spec : Except String Json
  agentsValid : Bool
  planner1 : Except String String
  planner2 : Except String String
  creation : Except String String
  bugfix : Except String String
  interaction : Except String String
  review : Except String String

/-- Terminal state of a run: an early `return False, "", output_dir`
(`aborted`), the final `return passed, final_html, output_dir`
(`completed`), or an uncaught `TypeError` at the final
`enforce_minimum_requirements` call when `html` holds a non-string
(`crashed`). -/
inductive Outcome where
  | aborted : Outcome
  | completed (passed : Json) (final_html : List Char) : Outcome
  | crashed : Outcome
  deriving DecidableEq

/-- Observable result of a run: its outcome, the artifact files written (in
order, with `save_intermediates = True`), and two instrumentation fields —
how many times the planner chain was invoked and which blueprint the pipeline
continued with. -/
structure RunResult where
  outcome : Outcome
  files : List String
  plannerCalls : Nat
  planUsed : Option Json
  deriving DecidableEq

/-- Whether a Python value supports `len(...)` (str, list, dict). -/
def isLenable : Json → Bool
  | .str _ => true
  | .arr _ => true
  | .obj _ => true
  | _ => false

/-- Whether a Python value supports slicing `x[:n]` (str, list). -/
def isSliceable : Json → Bool
  | .str _ => true
  | .arr _ => true
  | _ => false

/-- Whether every value of a dict is numeric (int or bool), so that the
review stage's `score >= 3` comparisons and `sum(...)` do not raise. -/
def kvsAllNum : JsonKVs → Bool
  | .nil => true
  | .cons _ (.num _) t => kvsAllNum t
  | .cons _ (.bool _) t => kvsAllNum t
  | .cons _ _ _ => false

/-- Whether the review stage's score print-out (lines 501–507) runs without
raising: `scores` must be a dict of numeric values. -/
def scoresOk : Json → Bool
  | .obj kvs => kvsAllNum kvs
  | _ => false

/-- Lookup with default on a payload dict (`data.get(k, dflt)`); every
payload reaching these call sites is a dict. -/
def jGetD (j : Json) (k : List Char) (dflt : Json) : Json :=
  match j with
  | .obj kvs => kvsGetD kvs k dflt
  | _ => dflt

/-- Step 6 of the orchestrator (student interaction, lines 464–484): the
artifacts it writes.  On a parse success the questions count print (line 479)
still raises when the `questions` value has no `len`, adding the error
artifact after the interaction file. -/
def interactionArtifacts (env : Env) : List String :=
  match env.interaction with
  | .error _ => ["4_interaction_error.txt"]
  | .ok rawi =>
    match safe_json_parse rawi.data with
    | .ok payi =>
      if isLenable (jGetD (payloadDict payi) "questions".data (.arr .nil)) then
        ["4_student_interaction.json"]
      else ["4_student_interaction.json", "4_interaction_error.txt"]
    | .error _ => ["4_interaction_error.txt"]

/-- Step 7 of the orchestrator (review, lines 486–519): the value left in
`passed` and the artifacts written.  On success `passed` is
`review_data.get("pass", False)`; any exception in the print-out (non-dict or
non-numeric scores, unsliceable truthy `required_changes` with a falsy pass)
leaves `passed = False` via the handler at line 519. -/
def reviewVerdict (env : Env) : Json × List String :=
  match env.review with
  | .error _ => (Json.bool false, ["6_review_error.txt"])
  | .ok rawr =>
    match safe_json_parse rawr.data with
    | .error _ => (Json.bool false, ["6_review_error.txt"])
    | .ok payr =>
      let dr := payloadDict payr
      if !scoresOk (jGetD dr "scores".data (.obj .nil)) then
        (Json.bool false, ["6_review_results.json", "6_review_error.txt"])
      else
        let p := jGetD dr "pass".data (.bool false)
        let rc := jGetD dr "required_changes".data (.arr .nil)
        if !pyTruthy p && pyTruthy rc && !isSliceable rc then
          (Json.bool false, ["6_review_results.json", "6_review_error.txt"])
        else (p, ["6_review_results.json"])

/-- Steps 6 and 7 of the orchestrator followed by the final write (lines
464–540).  `goodHtml` is `some h` when the `html` variable holds a string,
`none` when a non-string slipped in (then the final
`enforce_minimum_requirements` raises and the run crashes). -/
def reviewStages (env : Env) (plan : Json) (goodHtml : Option (List Char))
    (files : List String) (calls : Nat) : RunResult :=
  let files := files ++ interactionArtifacts env ++ (reviewVerdict env).2
  match goodHtml with
  | some h =>
    ⟨.completed (reviewVerdict env).1 (enforce_minimum_requirements h),
      files ++ ["5_final_output.html"], calls, some plan⟩
  | none => ⟨.crashed, files, calls, some plan⟩

/-- Tail of the bugfix stage once `html` holds the string `s`: enforce the
minimum requirements, persist the output, continue (lines 451–457). -/
def afterBugfixHtml (env : Env) (plan : Json) (s : List Char)
    (files : List String) (calls : Nat) : RunResult :=
  reviewStages env plan (some (enforce_minimum_requirements s))
    (files ++ ["3_bugfix_output.html"]) calls

/-- Continuation of the bugfix stage when its parse failed (or its
explanations print-out raised): `html = extract_html_from_response(raw)`,
then enforcement.  A non-string `index.html` member makes the enforcement
raise (caught, line 459) and leaves the non-string in `html`. -/
def bugfixFromRaw (env : Env) (plan : Json) (rawb : String)
    (files : List String) (calls : Nat) : RunResult :=
  match extract_html_from_response rawb.data with
  | .str s => afterBugfixHtml env plan s files calls
  | .nonstr _ => reviewStages env plan none (files ++ ["3_bugfix_error.txt"]) calls

/-- Step 5 of the orchestrator (bugfix, lines 428–462). -/
def bugfixStage (env : Env) (plan : Json) (html : List Char)
    (files : List String) (calls : Nat) : RunResult :=
  match env.bugfix with
  | .error _ => reviewStages env plan (some html) (files ++ ["3_bugfix_error.txt"]) calls
  | .ok rawb =>
    let files := files ++ ["3_bugfix_raw_response.txt"]
    match safe_json_parse rawb.data with
    | .ok pay =>
      match payloadDict pay with
      | .obj kvs =>
        let expl := kvsGetD kvs "explanations".data (.arr .nil)
        if pyTruthy expl && !isSliceable expl then
          bugfixFromRaw env plan rawb files calls
        else
          match kvsGet kvs "index.html".data with
          | some (.str s) => afterBugfixHtml env plan s files calls
          | some _ => reviewStages env plan none (files ++ ["3_bugfix_error.txt"]) calls
          | none => afterBugfixHtml env plan html files calls
      | _ => afterBugfixHtml env plan html files calls
    | .error _ => bugfixFromRaw env plan rawb files calls

/-- Step 4 of the orchestrator (creation, lines 393–426): invocation failure
aborts; a non-string extracted `index.html` raises at the `write_text` /
`check_minimum_requirements` calls inside the `try`, which also aborts. -/
def afterPlanning (env : Env) (plan : Json) (files : List String)
    (calls : Nat) : RunResult :=
  match env.creation with
  | .error _ => ⟨.aborted, files ++ ["2_creator_error.txt"], calls, some plan⟩
  | .ok rawc =>
    let files := files ++ ["2_creator_raw_response.txt"]
    match extract_html_from_response rawc.data with
    | .nonstr _ => ⟨.aborted, files ++ ["2_creator_error.txt"], calls, some plan⟩
    | .str html => bugfixStage env plan html (files ++ ["2_creator_output.html"]) calls

/-- Planner fallback (lines 371–384): the deterministic default blueprint,
whose own failure (non-dict spec, unreachable after step 1) aborts. -/
def plannerFallback (env : Env) (spec : Json) (files : List String)
    (calls : Nat) : RunResult :=
  match generate_default_blueprint_from_spec spec with
  | .ok bp => afterPlanning env bp (files ++ ["1_planner_blueprint_fallback.json"]) calls
  | .error _ => ⟨.aborted, files, calls, none⟩

/-- Model of the orchestrator `generate_simulation_with_checks`
(lines 276–540) with `save_intermediates = True`.  Print statements and file
contents are not modelled; the artifact list records which files are written,
in order.  Directory creation always succeeds (`output_dir` is not modelled). -/
def run (env : Env) : RunResult :=
  match env.load_spec with
  | .error _ => ⟨.aborted, [], 0, none⟩
  | .ok spec =>
    match spec with
    | .obj specKvs =>
      let files := ["spec.json"]
      if !env.agentsValid then ⟨.aborted, files, 0, none⟩
      else
        match env.planner1 with
        | .error _ => ⟨.aborted, files, 1, none⟩
        | .ok raw1 =>
          let files := files ++ ["1_planner_raw_response.txt"]
          match safe_json_parse raw1.data with
          | .ok pay1 =>
            afterPlanning env (payloadDict pay1)
              (files ++ ["1_planner_blueprint.json"]) 1
          | .error _ =>
            let files := files ++ ["1_planner_parse_error.txt"]
            match env.planner2 with
            | .ok raw2 =>
              let files := files ++ ["1_planner_retry_raw_response.txt"]
              match safe_json_parse raw2.data with
              | .ok pay2 =>
                afterPlanning env (payloadDict pay2)
                  (files ++ ["1_planner_blueprint.json"]) 2
              | .error _ =>
                plannerFallback env (.obj specKvs)
                  (files ++ ["1_planner_final_error.txt"]) 2
            | .error _ =>
              plannerFallback env (.obj specKvs)
                (files ++ ["1_planner_final_error.txt"]) 2
    | _ => ⟨.aborted, [], 0, none⟩

/-- Environment for the C5 witness: both planner responses fail extraction. -/
def envPlannerFails : Env :=
  ⟨.ok (.obj (.cons "Concept".data (.str "Heat flow".data) .nil)), true,
    .ok "oops one", .ok "oops two",
    .ok "<html></html>",
    .ok "nope", .ok "nope", .error "review down"⟩

mutual
/-- Whether every object in a JSON value has pairwise-distinct keys — the
values that can arise from Python dicts (`json.dumps` input). -/
def jNodup : Json → Bool
  | .arr xs => jlNodup xs
  | .obj kvs => kvsNodup kvs
  | _ => true
/-- List version of `jNodup`. -/
def jlNodup : JsonList → Bool
  | .nil => true
  | .cons h t => jNodup h && jlNodup t
/-- Dict version of `jNodup`: distinct keys, recursively well-formed values. -/
def kvsNodup : JsonKVs → Bool
  | .nil => true
  | .cons k v t => !kvsHasKey t k && jNodup v && kvsNodup t
end

/-- Concatenation of dicts (no deduplication). -/
def kvsConcat : JsonKVs → JsonKVs → JsonKVs
  | .nil, b => b
  | .cons k v t, b => .cons k v (kvsConcat t b)

/-- Concatenation of JSON lists. -/
def jlConcat : JsonList → JsonList → JsonList
  | .nil, b => b
  | .cons h t, b => .cons h (jlConcat t b)

/-- All keys of the first dict are absent from the second. -/
def kvsDisj : JsonKVs → JsonKVs → Bool
  | .nil, _ => true
  | .cons k _ t, acc => !kvsHasKey acc k && kvsDisj t acc

/-- What may legally follow a serialized JSON value inside a document:
nothing, or a separator/closer. -/
def restOk : List Char → Prop
  | [] => True
  | c :: _ => c = ',' ∨ c = '}' ∨ c = ']'

def noBraceCh (c : Char) : Bool := c ≠ '{' && c ≠ '}'

def noBrace (l : List Char) : Bool := l.all noBraceCh

mutual
/-- All string literals (and keys) of a value avoid both brace characters. -/
def strsBraceFree : Json → Bool
  | .str s => noBrace s
  | .arr xs => jlBraceFree xs
  | .obj kvs => kvsBraceFree kvs
  | _ => true
def jlBraceFree : JsonList → Bool
  | .nil => true
  | .cons h t => strsBraceFree h && jlBraceFree t
def kvsBraceFree : JsonKVs → Bool
  | .nil => true
  | .cons k v t => noBrace k && strsBraceFree v && kvsBraceFree t
end

mutual
/-- Maximal nesting depth counting only JSON objects. -/
def objDepth : Json → Nat
  | .obj kvs => kvsDepth kvs + 1
  | .arr xs => jlDepth xs
  | _ => 0
def jlDepth : JsonList → Nat
  | .nil => 0
  | .cons h t => max (objDepth h) (jlDepth t)
def kvsDepth : JsonKVs → Nat
  | .nil => 0
  | .cons _ v t => max (objDepth v) (kvsDepth t)
end

/-- The body language of the candidate-span regex: a sequence of non-brace
characters and complete brace-free one-level groups. -/
inductive Seg1 : List Char → Prop
  | nil : Seg1 []
  | chr {c : Char} {l : List Char} : noBraceCh c = true → Seg1 l → Seg1 (c :: l)
  | grp {m l : List Char} : noBrace m = true → Seg1 l → Seg1 ('{' :: (m ++ '}' :: l))

/-- C8: extraction of the input `\x7b"a": \x7b"b": 1\x7d\x7d` with expected
shape "structured" succeeds: the balanced-brace regex search tolerates the
one level of nesting, locates the full outer object, and the parse returns
the nested mapping. -/
theorem extract_nested_one_level :
    reSearch "\x7b\"a\": \x7b\"b\": 1\x7d\x7d".data =
      some (0, "\x7b\"a\": \x7b\"b\": 1\x7d\x7d".data) ∧
    safe_json_parse "\x7b\"a\": \x7b\"b\": 1\x7d\x7d".data =
      .ok (.structured (.obj (.cons "a".data
        (.obj (.cons "b".data (.num 1) .nil)) .nil))) := by
  decide

/-- C3 counterexample: for the valid JSON object
`\x7b"a": \x7b"b": \x7b"c": 1\x7d\x7d\x7d` (nesting depth three), extracting
its serialized form does not return the object itself: the regex search
skips the unmatched outer level and extraction returns the inner object
`\x7b"b": \x7b"c": 1\x7d\x7d` instead. -/
theorem extract_roundtrip_depth_cx :
    safe_json_parse (dumps (Json.obj (.cons "a".data
        (.obj (.cons "b".data (.obj (.cons "c".data (.num 1) .nil)) .nil)) .nil))) =
      .ok (.structured (.obj (.cons "b".data
        (.obj (.cons "c".data (.num 1) .nil)) .nil))) ∧
    Json.obj (.cons "b".data (.obj (.cons "c".data (.num 1) .nil)) .nil) ≠
      Json.obj (.cons "a".data
        (.obj (.cons "b".data (.obj (.cons "c".data (.num 1) .nil)) .nil)) .nil) := by
  decide

/-- C4 counterexample: on the pure HTML input `<!doctype html></html>x`
(trailing junk after the closing tag), extraction with expected shape
"structured" returns a `Document` whose content is the entire text, not the
span from the doctype marker through the last `</html>` inclusive. -/
theorem pure_html_not_clipped_cx :
    safe_json_parse "<!doctype html></html>x".data =
      .ok (.document "<!doctype html></html>x".data) ∧
    "<!doctype html></html>x".data ≠ "<!doctype html></html>".data := by
  decide

/-- C9 counterexample: in `x <html y <!doctype z</html>w` the `<html` marker
(index 2) appears before the doctype marker (index 10), yet HTML document
extraction starts at the doctype marker, not at the first-appearing marker:
the doctype position takes unconditional priority. -/
theorem doctype_priority_cx :
    findSub (toLowerL "x <html y <!doctype z</html>w".data) "<html".data = some 2 ∧
    findSub (toLowerL "x <html y <!doctype z</html>w".data) "<!doctype".data = some 10 ∧
    extract_html_from_response "x <html y <!doctype z</html>w".data =
      .str "<!doctype z</html>".data ∧
    HtmlOut.str "<!doctype z</html>".data ≠
      .str (sliceL "x <html y <!doctype z</html>w".data 2 28) := by
  decide

theorem fenceStrip_of_not_fence {t : List Char}
    (h : ("```".data).isPrefixOf t = false) : fenceStrip t = t := by
  simp [fenceStrip, h]

theorem startsHtmlDoc_ne_nil {t : List Char} (h : startsHtmlDoc t = true) :
    t.isEmpty = false := by
  cases t with
  | nil => exact absurd h (by decide)
  | cons c r => rfl

theorem decodeCandidate_err_inv {c s : List Char}
    (h : decodeCandidate c = .error (.jsonDecodeError s)) :
    json_loads c = none ∧ hasHtmlMarker c = false ∧ s = mkSnippet c := by
  unfold decodeCandidate at h
  split at h
  · exact absurd h (by simp)
  · rename_i hl
    split at h
    · exact absurd h (by simp)
    · rename_i hm
      refine ⟨hl, by simp at hm; exact hm, ?_⟩
      have := Except.error.inj h
      exact (ExtractErr.jsonDecodeError.inj this).symm

theorem htmlWrapOrFail_no_decode_err {t s : List Char}
    (h : htmlWrapOrFail t = .error (.jsonDecodeError s)) : False := by
  unfold htmlWrapOrFail at h
  split at h <;> simp at h

/-- C6: when a candidate JSON span fails to parse, the decode step returns a
`Document` carrying the entire candidate exactly when the lower-cased span
contains one of the markers `<html`, `<!doctype`, `<style`; a
`jsonDecodeError` escaping `safe_json_parse` always stems from a marker-free
failing candidate and carries a snippet built from at most 300 characters of
the offending text. -/
theorem decode_failure_html_marker :
    (∀ c, json_loads c = none → hasHtmlMarker c = true →
      decodeCandidate c = .ok (.document c)) ∧
    (∀ c, json_loads c = none → hasHtmlMarker c = false →
      decodeCandidate c = .error (.jsonDecodeError (mkSnippet c))) ∧
    (∀ raw s, safe_json_parse raw = .error (.jsonDecodeError s) →
      ∃ c, json_loads c = none ∧ hasHtmlMarker c = false ∧
        ∃ p, p <+: c ∧ p.length ≤ 300 ∧ s = replaceAllL p ['\n'] ['\\', 'n']) := by
  refine ⟨?_, ?_, ?_⟩
  · intro c hl hm
    simp [decodeCandidate, hl, hm]
  · intro c hl hm
    simp [decodeCandidate, hl, hm]
  · intro raw s h
    have use : ∀ c, decodeCandidate c = .error (.jsonDecodeError s) →
        ∃ c', json_loads c' = none ∧ hasHtmlMarker c' = false ∧
          ∃ p, p <+: c' ∧ p.length ≤ 300 ∧ s = replaceAllL p ['\n'] ['\\', 'n'] := by
      intro c hc
      obtain ⟨hl, hm, hs⟩ := decodeCandidate_err_inv hc
      exact ⟨c, hl, hm, c.take 300, List.take_prefix _ _,
        List.length_take_le 300 c, hs⟩
    unfold safe_json_parse at h
    dsimp only at h
    split at h
    · exact absurd h (by simp)
    · split at h
      · exact absurd h (by simp)
      · split at h
        · exact use _ h
        · split at h
          · split at h
            · exact use _ h
            · exact absurd (htmlWrapOrFail_no_decode_err h) (fun hf => hf)
          · exact absurd (htmlWrapOrFail_no_decode_err h) (fun hf => hf)

/-- Witness for C6 at concrete inputs: a failing candidate containing
`<html` becomes a `Document`; a marker-free failing candidate becomes a
`jsonDecodeError` with its snippet. -/
theorem decode_failure_html_marker_witness :
    decodeCandidate "x<html".data = .ok (.document "x<html".data) ∧
    decodeCandidate "x(".data = .error (.jsonDecodeError "x(".data) := by
  constructor
  · exact decode_failure_html_marker.1 "x<html".data (by decide) (by decide)
  · exact (decode_failure_html_marker.2.1 "x(".data (by decide) (by decide)).trans
      (by decide)

/-- C4 amended: an input whose stripped text carries no markdown fence and
begins (after leading whitespace, case-insensitively) with `<!doctype` or
`<html` makes `safe_json_parse` succeed with a `Document` whose content is
the entire stripped text (the wrap at lines 56–59; the content is not
clipped at the closing `</html>`). -/
theorem pure_html_returns_document (raw : List Char)
    (hfence : ("```".data).isPrefixOf (pyStrip raw) = false)
    (hdoc : startsHtmlDoc (pyStrip raw) = true) :
    safe_json_parse raw = .ok (.document (pyStrip raw)) := by
  have hne : (pyStrip raw).isEmpty = false := startsHtmlDoc_ne_nil hdoc
  unfold safe_json_parse
  simp only [fenceStrip_of_not_fence hfence, hne, hdoc]
  simp

/-- Witness for C4 at a concrete input, with mixed case and leading space. -/
theorem pure_html_returns_document_witness :
    safe_json_parse "  <HTML>hi".data = .ok (.document (pyStrip "  <HTML>hi".data)) :=
  pure_html_returns_document _ (by decide) (by decide)

theorem reviewStages_planUsed (env : Env) (plan : Json) (gh : Option (List Char))
    (files : List String) (calls : Nat) :
    (reviewStages env plan gh files calls).planUsed = some plan := by
  cases gh <;> rfl

theorem reviewStages_calls (env : Env) (plan : Json) (gh : Option (List Char))
    (files : List String) (calls : Nat) :
    (reviewStages env plan gh files calls).plannerCalls = calls := by
  cases gh <;> rfl

theorem reviewStages_mem (env : Env) (plan : Json) (gh : Option (List Char))
    (files : List String) (calls : Nat) {f : String} (hf : f ∈ files) :
    f ∈ (reviewStages env plan gh files calls).files := by
  cases gh <;> simp [reviewStages, hf]

theorem bugfixStage_planUsed (env : Env) (plan : Json) (html : List Char)
    (files : List String) (calls : Nat) :
    (bugfixStage env plan html files calls).planUsed = some plan := by
  unfold bugfixStage bugfixFromRaw afterBugfixHtml
  dsimp only
  repeat' split
  all_goals exact reviewStages_planUsed _ _ _ _ _

theorem bugfixStage_calls (env : Env) (plan : Json) (html : List Char)
    (files : List String) (calls : Nat) :
    (bugfixStage env plan html files calls).plannerCalls = calls := by
  unfold bugfixStage bugfixFromRaw afterBugfixHtml
  dsimp only
  repeat' split
  all_goals exact reviewStages_calls _ _ _ _ _

theorem bugfixStage_mem (env : Env) (plan : Json) (html : List Char)
    (files : List String) (calls : Nat) {f : String} (hf : f ∈ files) :
    f ∈ (bugfixStage env plan html files calls).files := by
  unfold bugfixStage bugfixFromRaw afterBugfixHtml
  dsimp only
  repeat' split
  all_goals exact reviewStages_mem _ _ _ _ _ (by simp [hf])

theorem afterPlanning_planUsed (env : Env) (plan : Json)
    (files : List String) (calls : Nat) :
    (afterPlanning env plan files calls).planUsed = some plan := by
  unfold afterPlanning
  repeat' split
  all_goals first
    | rfl
    | exact bugfixStage_planUsed _ _ _ _ _

theorem afterPlanning_calls (env : Env) (plan : Json)
    (files : List String) (calls : Nat) :
    (afterPlanning env plan files calls).plannerCalls = calls := by
  unfold afterPlanning
  repeat' split
  all_goals first
    | rfl
    | exact bugfixStage_calls _ _ _ _ _

/-- Whatever the creation stage does, it leaves a creator-stage artifact. -/
theorem afterPlanning_creator_artifact (env : Env) (plan : Json)
    (files : List String) (calls : Nat) :
    "2_creator_raw_response.txt" ∈ (afterPlanning env plan files calls).files ∨
      "2_creator_error.txt" ∈ (afterPlanning env plan files calls).files := by
  unfold afterPlanning
  repeat' split
  · exact Or.inr (by simp)
  · exact Or.inr (by simp)
  · exact Or.inl (bugfixStage_mem _ _ _ _ _ (by simp))

/-- When both planner responses fail to parse, the run proceeds through the
deterministic fallback blueprint. -/
theorem run_planner_fallback (env : Env) (kvs : JsonKVs) (r1 r2 : String)
    (e1 e2 : ExtractErr)
    (hs : env.load_spec = .ok (.obj kvs)) (hv : env.agentsValid = true)
    (h1 : env.planner1 = .ok r1) (hp1 : safe_json_parse r1.data = .error e1)
    (h2 : env.planner2 = .ok r2) (hp2 : safe_json_parse r2.data = .error e2) :
    run env = plannerFallback env (.obj kvs)
      ["spec.json", "1_planner_raw_response.txt", "1_planner_parse_error.txt",
        "1_planner_retry_raw_response.txt", "1_planner_final_error.txt"] 2 := by
  unfold run
  rw [hs, hv, h1]
  dsimp only
  rw [hp1]
  dsimp only
  rw [h2]
  dsimp only
  rw [hp2]
  simp

/-- A dict spec always yields a fallback blueprint, and the fallback hands it
to the creation stage. -/
theorem plannerFallback_obj (env : Env) (kvs : JsonKVs)
    (files : List String) (calls : Nat) :
    ∃ bp, generate_default_blueprint_from_spec (.obj kvs) = .ok bp ∧
      plannerFallback env (.obj kvs) files calls =
        afterPlanning env bp (files ++ ["1_planner_blueprint_fallback.json"]) calls :=
  ⟨_, rfl, rfl⟩

/-- C5: if extraction of the first planner response fails, the planner is
invoked exactly once more (two invocations in total); if that extraction
also fails, the pipeline continues into the creation stage carrying
`generate_default_blueprint_from_spec(spec)` — a pure function of the loaded
spec, so equal blueprints on equal specs — rather than blocking. -/
theorem planner_retry_once_then_default (env : Env) (kvs : JsonKVs)
    (r1 r2 : String) (e1 e2 : ExtractErr)
    (hs : env.load_spec = .ok (.obj kvs)) (hv : env.agentsValid = true)
    (h1 : env.planner1 = .ok r1) (hp1 : safe_json_parse r1.data = .error e1)
    (h2 : env.planner2 = .ok r2) (hp2 : safe_json_parse r2.data = .error e2) :
    ∃ bp, generate_default_blueprint_from_spec (.obj kvs) = .ok bp ∧
      (run env).planUsed = some bp ∧
      (run env).plannerCalls = 2 ∧
      ("2_creator_raw_response.txt" ∈ (run env).files ∨
        "2_creator_error.txt" ∈ (run env).files) := by
  obtain ⟨bp, hbp, hpf⟩ := plannerFallback_obj env kvs
    ["spec.json", "1_planner_raw_response.txt", "1_planner_parse_error.txt",
      "1_planner_retry_raw_response.txt", "1_planner_final_error.txt"] 2
  rw [run_planner_fallback env kvs r1 r2 e1 e2 hs hv h1 hp1 h2 hp2, hpf]
  exact ⟨bp, hbp, afterPlanning_planUsed _ _ _ _, afterPlanning_calls _ _ _ _,
    afterPlanning_creator_artifact _ _ _ _⟩

/-- Witness for C5 at a concrete environment. -/
theorem planner_retry_once_then_default_witness :
    ∃ bp, generate_default_blueprint_from_spec
        (.obj (.cons "Concept".data (.str "Heat flow".data) .nil)) = .ok bp ∧
      (run envPlannerFails).planUsed = some bp ∧
      (run envPlannerFails).plannerCalls = 2 ∧
      ("2_creator_raw_response.txt" ∈ (run envPlannerFails).files ∨
        "2_creator_error.txt" ∈ (run envPlannerFails).files) :=
  planner_retry_once_then_default envPlannerFails _ "oops one" "oops two"
    (.noJsonFound "oops one".data) (.noJsonFound "oops two".data)
    rfl rfl rfl (by decide) rfl (by decide)

theorem findSub_sound {pat : List Char} :
    ∀ {l : List Char} {i : Nat}, findSub l pat = some i → pat <+: l.drop i := by
  intro l
  induction l with
  | nil =>
    intro i h
    unfold findSub at h
    split at h
    · rename_i hp
      cases h
      exact List.isPrefixOf_iff_prefix.mp hp
    · simp at h
  | cons c t ih =>
    intro i h
    unfold findSub at h
    split at h
    · rename_i hp
      cases h
      exact List.isPrefixOf_iff_prefix.mp hp
    · simp only [Option.map_eq_some'] at h
      obtain ⟨i', hi', rfl⟩ := h
      simpa using ih hi'

theorem findSub_first {pat : List Char} :
    ∀ {l : List Char} {i : Nat}, pat <+: l.drop i →
      (∀ j, j < i → ¬ pat <+: l.drop j) → findSub l pat = some i := by
  intro l
  induction l with
  | nil =>
    intro i hocc hfirst
    cases i with
    | zero =>
      unfold findSub
      rw [if_pos (List.isPrefixOf_iff_prefix.mpr (by simpa using hocc))]
    | succ i' =>
      exact absurd (by simpa using hocc) (by simpa using hfirst 0 (Nat.succ_pos i'))
  | cons c t ih =>
    intro i hocc hfirst
    cases i with
    | zero =>
      unfold findSub
      rw [if_pos (List.isPrefixOf_iff_prefix.mpr (by simpa using hocc))]
    | succ i' =>
      have hnp : ¬ pat <+: c :: t := by simpa using hfirst 0 (Nat.succ_pos i')
      unfold findSub
      rw [if_neg (fun hp => hnp (List.isPrefixOf_iff_prefix.mp hp))]
      have := ih (by simpa using hocc)
        (fun j hj => by simpa using hfirst (j + 1) (Nat.succ_lt_succ hj))
      simp [this]

theorem rfindSub_isSome_of_occurs {pat : List Char} (hne : pat ≠ []) :
    ∀ {l : List Char} {j : Nat}, pat <+: l.drop j →
      ∃ e, rfindSub l pat = some e := by
  intro l
  induction l with
  | nil =>
    intro j hocc
    exact absurd (by simpa using hocc) hne
  | cons c t ih =>
    intro j hocc
    unfold rfindSub
    cases hr : rfindSub t pat with
    | some x => exact ⟨x + 1, rfl⟩
    | none =>
      cases j with
      | zero =>
        refine ⟨0, ?_⟩
        rw [if_pos (List.isPrefixOf_iff_prefix.mpr (by simpa using hocc))]
      | succ j' =>
        obtain ⟨e', he'⟩ := ih (j := j') (by simpa using hocc)
        rw [he'] at hr
        cases hr

theorem rfindSub_last {pat : List Char} (hne : pat ≠ []) :
    ∀ {l : List Char} {e : Nat}, rfindSub l pat = some e →
      pat <+: l.drop e ∧ ∀ j, pat <+: l.drop j → j ≤ e := by
  intro l
  induction l with
  | nil =>
    intro e h
    unfold rfindSub at h
    rw [if_neg (by simpa using hne)] at h
    cases h
  | cons c t ih =>
    intro e h
    unfold rfindSub at h
    split at h
    · rename_i j hj
      cases h
      obtain ⟨h1, h2⟩ := ih hj
      refine ⟨by simpa using h1, ?_⟩
      intro j' hj'
      cases j' with
      | zero => exact Nat.zero_le _
      | succ j'' => exact Nat.succ_le_succ (h2 j'' (by simpa using hj'))
    · rename_i hnone
      split at h
      · rename_i hp
        cases h
        refine ⟨by simpa using List.isPrefixOf_iff_prefix.mp hp, ?_⟩
        intro j hj
        cases j with
        | zero => exact Nat.le_refl 0
        | succ j' =>
          exfalso
          obtain ⟨e', he'⟩ := rfindSub_isSome_of_occurs hne (j := j') (by simpa using hj)
          rw [he'] at hnone
          cases hnone
      · cases h

/-- C9 amended: the extracted HTML section starts at the first occurrence of
the doctype marker whenever any doctype occurs — even if an `<html` tag
occurs earlier in the text — and at the first `<html` occurrence only when no
doctype occurs at all.  The section ends after the last `</html>` occurrence
(searched from the end of the string), or at the end of the string when there
is none. -/
theorem html_section_start_rule :
    (∀ text i, "<!doctype".data <+: (toLowerL text).drop i →
      (∀ j, j < i → ¬ "<!doctype".data <+: (toLowerL text).drop j) →
      ((rfindSub (toLowerL text) "</html>".data = none →
          findHtmlSection text = text.drop i) ∧
        (∀ e, rfindSub (toLowerL text) "</html>".data = some e →
          "</html>".data <+: (toLowerL text).drop e ∧
          (∀ j, "</html>".data <+: (toLowerL text).drop j → j ≤ e) ∧
          findHtmlSection text = sliceL text i (e + 7)))) ∧
    (∀ text i, (∀ j, ¬ "<!doctype".data <+: (toLowerL text).drop j) →
      "<html".data <+: (toLowerL text).drop i →
      (∀ j, j < i → ¬ "<html".data <+: (toLowerL text).drop j) →
      ((rfindSub (toLowerL text) "</html>".data = none →
          findHtmlSection text = text.drop i) ∧
        (∀ e, rfindSub (toLowerL text) "</html>".data = some e →
          findHtmlSection text = sliceL text i (e + 7)))) := by
  constructor
  · intro text i hocc hfirst
    have hfd : findSub (toLowerL text) "<!doctype".data = some i :=
      findSub_first hocc hfirst
    constructor
    · intro hre
      unfold findHtmlSection
      dsimp only
      rw [hfd]
      dsimp only
      rw [hre]
    · intro e hre
      obtain ⟨h1, h2⟩ := rfindSub_last (by decide) hre
      refine ⟨h1, h2, ?_⟩
      unfold findHtmlSection
      dsimp only
      rw [hfd]
      dsimp only
      rw [hre]
  · intro text i hnod hocc hfirst
    have hfd : findSub (toLowerL text) "<!doctype".data = none := by
      cases hf : findSub (toLowerL text) "<!doctype".data with
      | none => rfl
      | some j => exact absurd (findSub_sound hf) (hnod j)
    have hfh : findSub (toLowerL text) "<html".data = some i :=
      findSub_first hocc hfirst
    constructor
    · intro hre
      unfold findHtmlSection
      dsimp only
      rw [hfd]
      dsimp only
      rw [hfh]
      dsimp only
      rw [hre]
    · intro e hre
      unfold findHtmlSection
      dsimp only
      rw [hfd]
      dsimp only
      rw [hfh]
      dsimp only
      rw [hre]

/-- Witness for C9 (amended) on a concrete text where `<html` (index 1)
precedes the doctype (index 9): the section starts at the doctype. -/
theorem html_section_start_rule_witness :
    findHtmlSection "p<html> q<!doctype r</html>".data =
      sliceL "p<html> q<!doctype r</html>".data 9 (20 + 7) :=
  ((html_section_start_rule.1 "p<html> q<!doctype r</html>".data 9
    (by decide) (by decide)).2 20 (by decide)).2.2

theorem skipWs_cons_not_ws {c : Char} {l : List Char} (h : jWs c = false) :
    skipWs (c :: l) = c :: l := by
  simp [skipWs, List.dropWhile, h]

theorem isDigitCh_toNat {c : Char} (h : isDigitCh c = true) :
    48 ≤ c.toNat ∧ c.toNat ≤ 57 := by
  simp only [isDigitCh, Bool.and_eq_true, decide_eq_true_eq] at h
  obtain ⟨h1, h2⟩ := h
  exact ⟨h1, h2⟩

theorem digitCh_isDigit {n : Nat} (h : n < 10) : isDigitCh (digitCh n) = true := by
  interval_cases n <;> decide

theorem digitCh_toNat {n : Nat} (h : n < 10) : (digitCh n).toNat = 48 + n := by
  interval_cases n <;> decide

/-- One-digit case of `natDigitsAux_spec`. -/
theorem natDigitsAux_small {f n : Nat} (h10 : n < 10) :
    (∀ c ∈ natDigitsAux (f + 1) n, isDigitCh c = true) ∧
    natDigitsAux (f + 1) n ≠ [] ∧
    digitsVal (natDigitsAux (f + 1) n) = n ∧
    (∀ c, (natDigitsAux (f + 1) n).head? = some c → c = '0' → n = 0) := by
  refine ⟨?_, ?_, ?_, ?_⟩
  · intro c hc
    simp [natDigitsAux, h10] at hc
    subst hc
    exact digitCh_isDigit h10
  · simp [natDigitsAux, h10]
  · simp only [natDigitsAux, if_pos h10, digitsVal, List.foldl]
    have := digitCh_toNat h10
    have h0 : ('0').toNat = 48 := by decide
    omega
  · intro c hc hc0
    simp [natDigitsAux, h10] at hc
    subst hc
    have := digitCh_toNat h10
    have h0 : ('0').toNat = 48 := by decide
    rw [hc0] at this
    omega

/-- Facts about `natDigitsAux` needed for the parse inverse: its digits are
digits, it is nonempty, its value is `n`, and it starts with `'0'` only for
`n = 0`. -/
theorem natDigitsAux_spec : ∀ (f n : Nat), n < 10 ^ (f + 1) →
    (∀ c ∈ natDigitsAux (f + 1) n, isDigitCh c = true) ∧
    natDigitsAux (f + 1) n ≠ [] ∧
    digitsVal (natDigitsAux (f + 1) n) = n ∧
    (∀ c, (natDigitsAux (f + 1) n).head? = some c → c = '0' → n = 0) := by
  intro f
  induction f with
  | zero =>
    intro n hn
    have h10 : n < 10 := by simpa using hn
    exact natDigitsAux_small h10
  | succ f ih =>
    intro n hn
    by_cases h10 : n < 10
    · exact natDigitsAux_small h10
    · have hdiv : n / 10 < 10 ^ (f + 1) := by
        have hp : (10 : Nat) ^ (f + 1 + 1) = 10 * 10 ^ (f + 1) := by ring
        omega
      obtain ⟨ha, hne, hv, hz⟩ := ih (n / 10) hdiv
      have hmod : n % 10 < 10 := Nat.mod_lt _ (by omega)
      refine ⟨?_, ?_, ?_, ?_⟩
      · intro c hc
        simp only [natDigitsAux, if_neg h10, List.mem_append, List.mem_singleton] at hc
        rcases hc with hc | hc
        · exact ha c hc
        · subst hc; exact digitCh_isDigit hmod
      · simp [natDigitsAux, h10]
      · simp only [natDigitsAux, if_neg h10, digitsVal, List.foldl_append]
        show 10 * digitsVal (natDigitsAux (f + 1) (n / 10)) + ((digitCh (n % 10)).toNat - ('0').toNat) = n
        rw [hv, digitCh_toNat hmod]
        have h0 : ('0').toNat = 48 := by decide
        omega
      · intro c hc hc0
        obtain ⟨d, ds, hcons⟩ := List.exists_cons_of_ne_nil hne
        rw [natDigitsAux, if_neg h10, hcons] at hc
        simp only [List.cons_append, List.head?_cons, Option.some.injEq] at hc
        have hn10 : n / 10 = 0 := hz c (by rw [hcons, hc]; rfl) hc0
        omega

/-- Facts about `natDigits` (Python `str(n)`) needed for the parse inverse. -/
theorem natDigits_spec (n : Nat) :
    (∀ c ∈ natDigits n, isDigitCh c = true) ∧
    natDigits n ≠ [] ∧
    digitsVal (natDigits n) = n ∧
    (∀ c, (natDigits n).head? = some c → c = '0' → n = 0) := by
  have hlt : n < 10 ^ (n + 1) := by
    calc n < 10 ^ n := Nat.lt_pow_self (by norm_num) n
    _ ≤ 10 ^ (n + 1) := Nat.pow_le_pow_right (by norm_num) (Nat.le_succ n)
  exact natDigitsAux_spec n n hlt

theorem takeWhile_append_stop {p : Char → Bool} :
    ∀ {a b : List Char}, (∀ c ∈ a, p c = true) →
      (∀ c, b.head? = some c → p c = false) →
      (a ++ b).takeWhile p = a ∧ (a ++ b).dropWhile p = b := by
  intro a
  induction a with
  | nil =>
    intro b _ hb
    cases b with
    | nil => exact ⟨rfl, rfl⟩
    | cons c t =>
      have := hb c rfl
      simp [List.takeWhile, List.dropWhile, this]
  | cons x a' ih =>
    intro b ha hb
    have hx : p x = true := ha x (by simp)
    obtain ⟨h1, h2⟩ := ih (fun c hc => ha c (by simp [hc])) hb
    simp [List.takeWhile, List.dropWhile, hx, h1, h2]

theorem parseDigits_digits {n : Nat} {rest : List Char}
    (hrest : ∀ c, rest.head? = some c → isDigitCh c = false) :
    parseDigits (natDigits n ++ rest) = some (n, rest) := by
  obtain ⟨ha, hne, hv, _⟩ := natDigits_spec n
  obtain ⟨ht, hd⟩ := takeWhile_append_stop ha hrest
  unfold parseDigits
  rw [ht, hd]
  rw [if_neg (by simpa using hne)]
  rw [hv]

theorem parseNumNat_digits {n : Nat} {rest : List Char}
    (hrest : ∀ c, rest.head? = some c →
      isDigitCh c = false ∧ c ≠ '.' ∧ c ≠ 'e' ∧ c ≠ 'E') :
    parseNumNat (natDigits n ++ rest) = some (n, rest) := by
  obtain ⟨ha, hne, hv, hz⟩ := natDigits_spec n
  obtain ⟨ht, _⟩ := takeWhile_append_stop ha (fun c hc => (hrest c hc).1)
  unfold parseNumNat
  rw [parseDigits_digits (fun c hc => (hrest c hc).1)]
  dsimp only
  have hlz : ¬ (1 < ((natDigits n ++ rest).takeWhile isDigitCh).length ∧
      (natDigits n ++ rest).head? = some '0') := by
    rintro ⟨hlen, hhead⟩
    obtain ⟨d, ds, hcons⟩ := List.exists_cons_of_ne_nil hne
    rw [hcons] at hhead
    simp only [List.cons_append, List.head?_cons, Option.some.injEq] at hhead
    have hn0 : n = 0 := hz d (by rw [hcons]; rfl) hhead
    rw [ht, hn0] at hlen
    simp [natDigits, natDigitsAux, digitCh] at hlen
  rw [if_neg (by simp only [Bool.and_eq_true, decide_eq_true_eq]; exact hlz)]
  cases rest with
  | nil => rfl
  | cons c t =>
    obtain ⟨_, h2, h3, h4⟩ := hrest c rfl
    simp [h2, h3, h4]

theorem parseNum_intRepr {n : Int} {rest : List Char}
    (hrest : ∀ c, rest.head? = some c →
      isDigitCh c = false ∧ c ≠ '.' ∧ c ≠ 'e' ∧ c ≠ 'E') :
    parseNum (intRepr n ++ rest) = some (.num n, rest) := by
  by_cases hn : n < 0
  · rw [intRepr, if_pos hn]
    show parseNum ('-' :: (natDigits (-n).toNat ++ rest)) = some (.num n, rest)
    unfold parseNum
    split
    · rename_i t ht
      simp only [List.cons.injEq, true_and] at ht
      rw [← ht, parseNumNat_digits hrest]
      simp only [Option.map_some']
      rw [show (-(((-n).toNat : Nat) : Int)) = n by omega]
    · rename_i hne2
      exact absurd rfl (hne2 (natDigits (-n).toNat ++ rest))
  · rw [intRepr, if_neg hn]
    obtain ⟨ha, hne, _, _⟩ := natDigits_spec n.toNat
    obtain ⟨d, ds, hcons⟩ := List.exists_cons_of_ne_nil hne
    have hd : isDigitCh d = true := ha d (by rw [hcons]; simp)
    unfold parseNum
    rw [hcons]
    split
    · rename_i t ht
      simp only [List.cons_append, List.cons.injEq] at ht
      have := isDigitCh_toNat hd
      have hdne : d ≠ '-' := by
        intro hEq
        rw [hEq] at this
        simp at this
      exact absurd ht.1 hdne
    · rw [← hcons, parseNumNat_digits hrest]
      simp only [Option.map_some']
      rw [show ((n.toNat : Nat) : Int) = n from Int.toNat_of_nonneg (by omega)]

theorem hex4_control : ∀ v, v < 32 →
    hex4 '0' '0' (hexCh (v / 16)) (hexCh (v % 16)) = some v := by
  decide

theorem parseEsc_u_bmp {a b c d : Char} {v : Nat} {r : List Char}
    (hh : hex4 a b c d = some v) (hv : v < 0xD800) :
    parseEsc ('u' :: a :: b :: c :: d :: r) = some (Char.ofNat v, r) := by
  rw [show parseEsc ('u' :: a :: b :: c :: d :: r) = parseEscU a b c d r from rfl]
  unfold parseEscU
  rw [hh]
  dsimp only
  rw [if_pos (Or.inl hv)]

/-- Every character is escaped by `escapeChar` in one of three shapes, each
inverted by the string scanner. -/
theorem escapeChar_cases (c : Char) :
    (escapeChar c = [c] ∧ c ≠ '"' ∧ c ≠ '\\' ∧ ¬ c.toNat < 32) ∨
    (∃ e, escapeChar c = ['\\', e] ∧ ∀ X, parseEsc (e :: X) = some (c, X)) ∨
    (∃ e2 e3 e4 e5, escapeChar c = ['\\', 'u', e2, e3, e4, e5] ∧
      ∀ X, parseEsc ('u' :: e2 :: e3 :: e4 :: e5 :: X) = some (c, X)) := by
  by_cases h1 : c = '"'
  · subst h1; exact Or.inr (Or.inl ⟨'"', rfl, fun X => rfl⟩)
  by_cases h2 : c = '\\'
  · subst h2; exact Or.inr (Or.inl ⟨'\\', rfl, fun X => rfl⟩)
  by_cases h3 : c = '\n'
  · subst h3; exact Or.inr (Or.inl ⟨'n', rfl, fun X => rfl⟩)
  by_cases h4 : c = '\t'
  · subst h4; exact Or.inr (Or.inl ⟨'t', rfl, fun X => rfl⟩)
  by_cases h5 : c = '\r'
  · subst h5; exact Or.inr (Or.inl ⟨'r', rfl, fun X => rfl⟩)
  by_cases h6 : c = '\x08'
  · subst h6; exact Or.inr (Or.inl ⟨'b', rfl, fun X => rfl⟩)
  by_cases h7 : c = '\x0c'
  · subst h7; exact Or.inr (Or.inl ⟨'f', rfl, fun X => rfl⟩)
  by_cases h8 : c.toNat < 32
  · refine Or.inr (Or.inr ⟨'0', '0', hexCh (c.toNat / 16), hexCh (c.toNat % 16), ?_, ?_⟩)
    · simp [escapeChar, h1, h2, h3, h4, h5, h6, h7, h8]
    · intro X
      rw [parseEsc_u_bmp (hex4_control c.toNat h8) (by omega)]
      simp
  · exact Or.inl ⟨by simp [escapeChar, h1, h2, h3, h4, h5, h6, h7, h8], h1, h2, h8⟩

theorem parseStrAux_cons (f : Nat) (c : Char) (t : List Char) :
    parseStrAux (f + 1) (c :: t) =
      if c = '"' then some ([], t)
      else if c = '\\' then
        match parseEsc t with
        | some (ch, r) => (parseStrAux f r).map (fun p => (ch :: p.1, p.2))
        | none => none
      else if c.toNat < 32 then none
      else (parseStrAux f t).map (fun p => (c :: p.1, p.2)) := rfl

theorem parseStrAux_quote (f : Nat) (r : List Char) :
    parseStrAux (f + 1) ('"' :: r) = some ([], r) := rfl

theorem parseStrAux_esc (f : Nat) {t : List Char} {ch : Char} {r : List Char}
    (h : parseEsc t = some (ch, r)) :
    parseStrAux (f + 1) ('\\' :: t) =
      (parseStrAux f r).map (fun p => (ch :: p.1, p.2)) := by
  rw [parseStrAux_cons, if_neg (by decide), if_pos rfl, h]

theorem parseStrAux_plain (f : Nat) {c : Char} (t : List Char)
    (h1 : c ≠ '"') (h2 : c ≠ '\\') (h3 : ¬ c.toNat < 32) :
    parseStrAux (f + 1) (c :: t) =
      (parseStrAux f t).map (fun p => (c :: p.1, p.2)) := by
  rw [parseStrAux_cons, if_neg h1, if_neg h2, if_neg h3]

/-- The string scanner inverts `escapeStr`, given enough fuel. -/
theorem parseStr_escape : ∀ (s : List Char) {f : Nat} {rest : List Char},
    (escapeStr s).length + 1 + rest.length ≤ f →
    parseStrAux f (escapeStr s ++ '"' :: rest) = some (s, rest) := by
  intro s
  induction s with
  | nil =>
    intro f rest hf
    obtain ⟨f', rfl⟩ : ∃ f', f = f' + 1 :=
      ⟨f - 1, by simp only [escapeStr, List.length_nil] at hf; omega⟩
    exact parseStrAux_quote f' rest
  | cons c s' ih =>
    intro f rest hf
    have hsh : escapeStr (c :: s') = escapeChar c ++ escapeStr s' := rfl
    rw [hsh] at hf ⊢
    rw [List.append_assoc]
    rcases escapeChar_cases c with ⟨he, hc1, hc2, hc3⟩ | ⟨e, he, hpe⟩ |
        ⟨e2, e3, e4, e5, he, hpe⟩
    · rw [he] at hf ⊢
      simp only [List.length_append, List.length_cons, List.length_nil] at hf
      obtain ⟨f1, rfl⟩ : ∃ f1, f = f1 + 1 := ⟨f - 1, by omega⟩
      rw [show ([c] : List Char) ++ (escapeStr s' ++ '"' :: rest) =
        c :: (escapeStr s' ++ '"' :: rest) from rfl]
      rw [parseStrAux_plain f1 _ hc1 hc2 hc3]
      rw [ih (by omega)]
      rfl
    · rw [he] at hf ⊢
      simp only [List.length_append, List.length_cons, List.length_nil] at hf
      obtain ⟨f1, rfl⟩ : ∃ f1, f = f1 + 1 := ⟨f - 1, by omega⟩
      rw [show (['\\', e] : List Char) ++ (escapeStr s' ++ '"' :: rest) =
        '\\' :: (e :: (escapeStr s' ++ '"' :: rest)) from rfl]
      rw [parseStrAux_esc f1 (hpe (escapeStr s' ++ '"' :: rest))]
      rw [ih (by omega)]
      rfl
    · rw [he] at hf ⊢
      simp only [List.length_append, List.length_cons, List.length_nil] at hf
      obtain ⟨f1, rfl⟩ : ∃ f1, f = f1 + 1 := ⟨f - 1, by omega⟩
      rw [show (['\\', 'u', e2, e3, e4, e5] : List Char) ++
        (escapeStr s' ++ '"' :: rest) =
        '\\' :: ('u' :: e2 :: e3 :: e4 :: e5 :: (escapeStr s' ++ '"' :: rest)) from rfl]
      rw [parseStrAux_esc f1 (hpe (escapeStr s' ++ '"' :: rest))]
      rw [ih (by omega)]
      rfl

/-- Induction principle for `JsonList` alone (the mutual recursor has
several motives, which the `induction` tactic cannot use directly). -/
theorem jsonListInd {motive : JsonList → Prop} (nil : motive .nil)
    (cons : ∀ h t, motive t → motive (.cons h t)) : ∀ l, motive l
  | .nil => nil
  | .cons h t => cons h t (jsonListInd nil cons t)

/-- Induction principle for `JsonKVs` alone. -/
theorem jsonKVsInd {motive : JsonKVs → Prop} (nil : motive .nil)
    (cons : ∀ k v t, motive t → motive (.cons k v t)) : ∀ kvs, motive kvs
  | .nil => nil
  | .cons k v t => cons k v t (jsonKVsInd nil cons t)

theorem jlAppend_concat (acc : JsonList) (v : Json) :
    jlAppend acc v = jlConcat acc (.cons v .nil) := by
  induction acc using jsonListInd with
  | nil => rfl
  | cons h t ih => simp [jlAppend, jlConcat, ih]

theorem jlConcat_snoc (acc : JsonList) (v : Json) (b : JsonList) :
    jlConcat (jlConcat acc (.cons v .nil)) b = jlConcat acc (.cons v b) := by
  induction acc using jsonListInd with
  | nil => rfl
  | cons h t ih => simp [jlConcat, ih]

theorem kvsUpd_fresh {acc : JsonKVs} {k : List Char} {v : Json}
    (h : kvsHasKey acc k = false) :
    kvsUpd acc k v = kvsConcat acc (.cons k v .nil) := by
  induction acc using jsonKVsInd with
  | nil => rfl
  | cons k0 v0 t ih =>
    simp only [kvsHasKey, kvsGet] at h
    by_cases hk : k0 = k
    · rw [hk] at h
      simp at h
    · simp only [kvsUpd, if_neg hk, kvsConcat]
      rw [ih]
      simp only [kvsHasKey]
      rw [if_neg hk] at h
      exact h

theorem kvsConcat_snoc (acc : JsonKVs) (k : List Char) (v : Json) (b : JsonKVs) :
    kvsConcat (kvsConcat acc (.cons k v .nil)) b = kvsConcat acc (.cons k v b) := by
  induction acc using jsonKVsInd with
  | nil => rfl
  | cons k0 v0 t ih => simp [kvsConcat, ih]

theorem kvsHasKey_cons (k0 : List Char) (v0 : Json) (t : JsonKVs) (k : List Char) :
    kvsHasKey (.cons k0 v0 t) k = (decide (k0 = k) || kvsHasKey t k) := by
  simp only [kvsHasKey, kvsGet]
  by_cases hk : k0 = k <;> simp [hk]

theorem kvsHasKey_concat (a b : JsonKVs) (k : List Char) :
    kvsHasKey (kvsConcat a b) k = (kvsHasKey a k || kvsHasKey b k) := by
  induction a using jsonKVsInd with
  | nil => simp [kvsConcat, kvsHasKey, kvsGet]
  | cons k0 v0 t ih =>
    simp only [kvsConcat, kvsHasKey_cons, ih, Bool.or_assoc]

theorem kvsDisj_shift {k : List Char} {v : Json} {kt acc : JsonKVs}
    (hd : kvsDisj (.cons k v kt) acc = true)
    (hn : kvsHasKey kt k = false) :
    kvsDisj kt (kvsConcat acc (.cons k v .nil)) = true := by
  simp only [kvsDisj, Bool.and_eq_true, Bool.not_eq_true'] at hd
  obtain ⟨hk, hrest⟩ := hd
  induction kt using jsonKVsInd with
  | nil => rfl
  | cons k2 v2 t2 ih =>
    simp only [kvsDisj, Bool.and_eq_true, Bool.not_eq_true'] at hrest ⊢
    simp only [kvsHasKey_cons, Bool.or_eq_false_iff, decide_eq_false_iff_not] at hn
    refine ⟨?_, ih hn.2 hrest.2⟩
    rw [kvsHasKey_concat]
    simp only [Bool.or_eq_false_iff]
    refine ⟨hrest.1, ?_⟩
    rw [kvsHasKey_cons]
    simp only [kvsHasKey, kvsGet, Bool.or_false]
    simpa using fun h => hn.1 h.symm

theorem parseVal_succ (f : Nat) (l : List Char) :
    parseVal (f + 1) l =
      match skipWs l with
      | [] => none
      | c :: t =>
        if c = '{' then
          match skipWs t with
          | '}' :: r => some (.obj .nil, r)
          | t2 => parseMembers f t2 .nil
        else if c = '[' then
          match skipWs t with
          | ']' :: r => some (.arr .nil, r)
          | t2 => parseItems f t2 .nil
        else if c = '"' then (parseStrAux t.length t).map (fun p => (Json.str p.1, p.2))
        else if c = 't' then
          match t with
          | 'r' :: 'u' :: 'e' :: r => some (.bool true, r)
          | _ => none
        else if c = 'f' then
          match t with
          | 'a' :: 'l' :: 's' :: 'e' :: r => some (.bool false, r)
          | _ => none
        else if c = 'n' then
          match t with
          | 'u' :: 'l' :: 'l' :: r => some (.null, r)
          | _ => none
        else if c = '-' || isDigitCh c then parseNum (c :: t)
        else none := rfl

theorem parseVal_lbrace {l t : List Char} (f : Nat) (h : skipWs l = '{' :: t) :
    parseVal (f + 1) l =
      match skipWs t with
      | '}' :: r => some (.obj .nil, r)
      | t2 => parseMembers f t2 .nil := by
  rw [parseVal_succ, h]
  dsimp only
  rw [if_pos rfl]

theorem parseVal_lbrack {l t : List Char} (f : Nat) (h : skipWs l = '[' :: t) :
    parseVal (f + 1) l =
      match skipWs t with
      | ']' :: r => some (.arr .nil, r)
      | t2 => parseItems f t2 .nil := by
  rw [parseVal_succ, h]
  dsimp only
  rw [if_neg (by decide), if_pos rfl]

theorem parseVal_strhead {l t : List Char} (f : Nat) (h : skipWs l = '"' :: t) :
    parseVal (f + 1) l = (parseStrAux t.length t).map (fun p => (Json.str p.1, p.2)) := by
  rw [parseVal_succ, h]
  dsimp only
  rw [if_neg (by decide), if_neg (by decide), if_pos rfl]

theorem parseVal_null (f : Nat) {l r : List Char}
    (h : skipWs l = 'n' :: 'u' :: 'l' :: 'l' :: r) :
    parseVal (f + 1) l = some (.null, r) := by
  rw [parseVal_succ, h]
  dsimp only
  rw [if_neg (by decide), if_neg (by decide), if_neg (by decide), if_neg (by decide),
    if_neg (by decide), if_pos rfl]
  rfl

theorem parseVal_true (f : Nat) {l r : List Char}
    (h : skipWs l = 't' :: 'r' :: 'u' :: 'e' :: r) :
    parseVal (f + 1) l = some (.bool true, r) := by
  rw [parseVal_succ, h]
  dsimp only
  rw [if_neg (by decide), if_neg (by decide), if_neg (by decide), if_pos rfl]
  rfl

theorem parseVal_false (f : Nat) {l r : List Char}
    (h : skipWs l = 'f' :: 'a' :: 'l' :: 's' :: 'e' :: r) :
    parseVal (f + 1) l = some (.bool false, r) := by
  rw [parseVal_succ, h]
  dsimp only
  rw [if_neg (by decide), if_neg (by decide), if_neg (by decide), if_neg (by decide),
    if_pos rfl]
  rfl

theorem jWs_toNat {c : Char} (h : jWs c = true) :
    c.toNat = 32 ∨ c.toNat = 9 ∨ c.toNat = 10 ∨ c.toNat = 13 := by
  simp only [jWs, Bool.or_eq_true, decide_eq_true_eq] at h
  rcases h with ((h | h) | h) | h <;> subst h <;> simp

theorem num_head_facts {c : Char} (hc : c = '-' ∨ isDigitCh c = true) :
    c ≠ '{' ∧ c ≠ '[' ∧ c ≠ '"' ∧ c ≠ 't' ∧ c ≠ 'f' ∧ c ≠ 'n' ∧
      jWs c = false ∧ (c = '-' || isDigitCh c) = true := by
  rcases hc with hc | hc
  · subst hc
    exact ⟨by decide, by decide, by decide, by decide, by decide, by decide,
      by decide, by simp⟩
  · have hb := isDigitCh_toNat hc
    have hne : ∀ d : Char, (48 ≤ d.toNat → d.toNat ≤ 57 → False) → c ≠ d := by
      intro d hd hEq
      subst hEq
      exact hd hb.1 hb.2
    refine ⟨hne _ (by decide), hne _ (by decide), hne _ (by decide),
      hne _ (by decide), hne _ (by decide), hne _ (by decide), ?_, by simp [hc]⟩
    cases hw : jWs c with
    | false => rfl
    | true =>
      have := jWs_toNat hw
      omega

theorem parseVal_numhead (f : Nat) {l : List Char} {c : Char} {t : List Char}
    (h : skipWs l = c :: t) (hc : c = '-' ∨ isDigitCh c = true) :
    parseVal (f + 1) l = parseNum (c :: t) := by
  obtain ⟨h1, h2, h3, h4, h5, h6, _, h8⟩ := num_head_facts hc
  rw [parseVal_succ, h]
  dsimp only
  rw [if_neg h1, if_neg h2, if_neg h3, if_neg h4, if_neg h5, if_neg h6, if_pos h8]

theorem parseMembers_succ (f : Nat) (l : List Char) (acc : JsonKVs) :
    parseMembers (f + 1) l acc =
      match l with
      | '"' :: t =>
        match parseStrAux t.length t with
        | some (k, r1) =>
          match skipWs r1 with
          | ':' :: r2 =>
            match parseVal f r2 with
            | some (v, r3) =>
              match skipWs r3 with
              | '}' :: r4 => some (.obj (kvsUpd acc k v), r4)
              | ',' :: r4 => parseMembers f (skipWs r4) (kvsUpd acc k v)
              | _ => none
            | none => none
          | _ => none
        | none => none
      | _ => none := rfl

theorem parseItems_succ (f : Nat) (l : List Char) (acc : JsonList) :
    parseItems (f + 1) l acc =
      match parseVal f l with
      | some (v, r) =>
        match skipWs r with
        | ']' :: r2 => some (.arr (jlAppend acc v), r2)
        | ',' :: r2 => parseItems f r2 (jlAppend acc v)
        | _ => none
      | none => none := rfl

theorem skipWs_cons_ws {c : Char} {l : List Char} (h : jWs c = true) :
    skipWs (c :: l) = skipWs l := by
  simp [skipWs, List.dropWhile, h]

theorem parseVal_skipws_eq {l1 l2 : List Char} (f : Nat)
    (h : skipWs l1 = skipWs l2) : parseVal f l1 = parseVal f l2 := by
  cases f with
  | zero => rfl
  | succ f => rw [parseVal_succ, parseVal_succ, h]

theorem kvsDisj_nil : ∀ kvs : JsonKVs, kvsDisj kvs .nil = true := by
  intro kvs
  induction kvs using jsonKVsInd with
  | nil => rfl
  | cons k v t ih => simp [kvsDisj, kvsHasKey, kvsGet, ih]

theorem restOk_num_stop {rest : List Char} (h : restOk rest) :
    ∀ c, rest.head? = some c →
      isDigitCh c = false ∧ c ≠ '.' ∧ c ≠ 'e' ∧ c ≠ 'E' := by
  intro c hc
  cases rest with
  | nil => cases hc
  | cons c0 t =>
    simp only [List.head?_cons, Option.some.injEq] at hc
    subst hc
    rcases h with h | h | h <;> subst h <;> exact ⟨by decide, by decide, by decide, by decide⟩

theorem dumps_head_shape (X : Json) :
    ∃ c t, dumps X = c :: t ∧ jWs c = false ∧ c ≠ ']' ∧ c ≠ '}' := by
  cases X with
  | null =>
    refine ⟨'n', _, rfl, ?_, ?_, ?_⟩ <;> decide
  | bool b =>
    cases b with
    | true => refine ⟨'t', _, rfl, ?_, ?_, ?_⟩ <;> decide
    | false => refine ⟨'f', _, rfl, ?_, ?_, ?_⟩ <;> decide
  | str s =>
    refine ⟨'"', escapeStr s ++ ['"'], by simp [dumps], ?_, ?_, ?_⟩ <;> decide
  | arr xs =>
    refine ⟨'[', dumpsList xs ++ [']'], by simp [dumps], ?_, ?_, ?_⟩ <;> decide
  | obj kvs =>
    refine ⟨'{', dumpsKVs kvs ++ ['}'], by simp [dumps], ?_, ?_, ?_⟩ <;> decide
  | num n =>
    by_cases hn : n < 0
    · refine ⟨'-', natDigits (-n).toNat, ?_, by decide, by decide, by decide⟩
      simp [dumps, intRepr, hn]
    · obtain ⟨ha, hne, _, _⟩ := natDigits_spec n.toNat
      obtain ⟨d, ds, hcons⟩ := List.exists_cons_of_ne_nil hne
      have hd : isDigitCh d = true := ha d (by rw [hcons]; simp)
      have hb := isDigitCh_toNat hd
      refine ⟨d, ds, ?_, ?_, ?_, ?_⟩
      · simp [dumps, intRepr, hn, hcons]
      · cases hw : jWs d with
        | false => rfl
        | true => have := jWs_toNat hw; omega
      · intro hEq; subst hEq; exact absurd hd (by decide)
      · intro hEq; subst hEq; exact absurd hd (by decide)

theorem dumpsList_head (x : Json) (xt : JsonList) :
    ∃ w, dumpsList (.cons x xt) = dumps x ++ w := by
  cases xt with
  | nil => exact ⟨[], by simp [dumpsList]⟩
  | cons x2 t2 => exact ⟨_, rfl⟩

theorem dumpsKVs_head (k : List Char) (v : Json) (kt : JsonKVs) :
    ∃ w, dumpsKVs (.cons k v kt) =
      '"' :: (escapeStr k ++ '"' :: ':' :: ' ' :: dumps v ++ w) := by
  cases kt with
  | nil => exact ⟨[], by simp [dumpsKVs]⟩
  | cons k2 v2 t2 =>
    exact ⟨',' :: ' ' :: dumpsKVs (.cons k2 v2 t2), by simp [dumpsKVs]⟩

theorem parseItems_skipws_eq {l1 l2 : List Char} (f : Nat) (acc : JsonList)
    (h : skipWs l1 = skipWs l2) : parseItems f l1 acc = parseItems f l2 acc := by
  cases f with
  | zero => rfl
  | succ f => rw [parseItems_succ, parseItems_succ, parseVal_skipws_eq f h]

/-- The model of `json.loads` inverts the model of `json.dumps`: the value,
object-member and array-item statements are proved together by induction on
the parser fuel. -/
theorem parse_dumps_rt : ∀ f : Nat,
    (∀ (X : Json) (rest : List Char), jNodup X = true → restOk rest →
      2 * (dumps X).length + 2 ≤ f →
      parseVal f (dumps X ++ rest) = some (X, rest)) ∧
    (∀ (k : List Char) (v : Json) (kt : JsonKVs) (acc : JsonKVs) (rest : List Char),
      kvsNodup (.cons k v kt) = true → kvsDisj (.cons k v kt) acc = true →
      2 * (dumpsKVs (.cons k v kt)).length + 2 ≤ f →
      parseMembers f (dumpsKVs (.cons k v kt) ++ '}' :: rest) acc =
        some (.obj (kvsConcat acc (.cons k v kt)), rest)) ∧
    (∀ (x : Json) (xt : JsonList) (acc : JsonList) (rest : List Char),
      jlNodup (.cons x xt) = true →
      2 * (dumpsList (.cons x xt)).length + 3 ≤ f →
      parseItems f (dumpsList (.cons x xt) ++ ']' :: rest) acc =
        some (.arr (jlConcat acc (.cons x xt)), rest)) := by
  intro f
  induction f with
  | zero =>
    exact ⟨fun X rest _ _ hf => absurd hf (by omega),
      fun k v kt acc rest _ _ hf => absurd hf (by omega),
      fun x xt acc rest _ hf => absurd hf (by omega)⟩
  | succ f ih =>
    obtain ⟨ihV, ihM, ihI⟩ := ih
    refine ⟨?_, ?_, ?_⟩
    · intro X rest hnd hrest hf
      cases X with
      | null =>
        exact parseVal_null f (by
          rw [show dumps .null ++ rest = 'n' :: 'u' :: 'l' :: 'l' :: rest from rfl]
          exact skipWs_cons_not_ws (by decide))
      | bool b =>
        cases b with
        | true =>
          exact parseVal_true f (by
            rw [show dumps (.bool true) ++ rest = 't' :: 'r' :: 'u' :: 'e' :: rest from rfl]
            exact skipWs_cons_not_ws (by decide))
        | false =>
          exact parseVal_false f (by
            rw [show dumps (.bool false) ++ rest =
              'f' :: 'a' :: 'l' :: 's' :: 'e' :: rest from rfl]
            exact skipWs_cons_not_ws (by decide))
      | num n =>
        have hshape : ∃ c t, dumps (.num n) = c :: t ∧ (c = '-' ∨ isDigitCh c = true) := by
          by_cases hn : n < 0
          · exact ⟨'-', natDigits (-n).toNat, by simp [dumps, intRepr, hn], Or.inl rfl⟩
          · obtain ⟨ha, hne, _, _⟩ := natDigits_spec n.toNat
            obtain ⟨d, ds, hcons⟩ := List.exists_cons_of_ne_nil hne
            exact ⟨d, ds, by simp [dumps, intRepr, hn, hcons],
              Or.inr (ha d (by rw [hcons]; simp))⟩
        obtain ⟨c, t, heq, hcase⟩ := hshape
        have hskip : skipWs (dumps (.num n) ++ rest) = c :: (t ++ rest) := by
          rw [heq]
          exact skipWs_cons_not_ws (num_head_facts hcase).2.2.2.2.2.2.1
        rw [parseVal_numhead f hskip hcase]
        rw [show c :: (t ++ rest) = (c :: t) ++ rest from rfl, ← heq]
        rw [show dumps (.num n) = intRepr n from rfl]
        exact parseNum_intRepr (restOk_num_stop hrest)
      | str s =>
        have hd : dumps (.str s) ++ rest = '"' :: (escapeStr s ++ '"' :: rest) := by
          simp [dumps]
        have hskip : skipWs (dumps (.str s) ++ rest) =
            '"' :: (escapeStr s ++ '"' :: rest) := by
          rw [hd]
          exact skipWs_cons_not_ws (by decide)
        rw [parseVal_strhead f hskip]
        rw [parseStr_escape s (by simp [List.length_append]; omega)]
        rfl
      | arr xs =>
        cases xs with
        | nil =>
          have hskip : skipWs (dumps (.arr .nil) ++ rest) = '[' :: (']' :: rest) := by
            rw [show dumps (.arr .nil) ++ rest = '[' :: ']' :: rest from rfl]
            exact skipWs_cons_not_ws (by decide)
          rw [parseVal_lbrack f hskip]
          rw [skipWs_cons_not_ws (by decide)]
          rfl
        | cons x xt =>
          have hsplit : dumps (.arr (.cons x xt)) ++ rest =
              '[' :: (dumpsList (.cons x xt) ++ ']' :: rest) := by
            simp [dumps]
          have hskip : skipWs (dumps (.arr (.cons x xt)) ++ rest) =
              '[' :: (dumpsList (.cons x xt) ++ ']' :: rest) := by
            rw [hsplit]
            exact skipWs_cons_not_ws (by decide)
          rw [parseVal_lbrack f hskip]
          obtain ⟨w, hw⟩ := dumpsList_head x xt
          obtain ⟨c, t, hx, hws, hrb, _⟩ := dumps_head_shape x
          have hin : dumpsList (.cons x xt) ++ ']' :: rest =
              c :: (t ++ w ++ ']' :: rest) := by
            rw [hw, hx]
            simp
          have hskip2 : skipWs (dumpsList (.cons x xt) ++ ']' :: rest) =
              c :: (t ++ w ++ ']' :: rest) := by
            rw [hin]
            exact skipWs_cons_not_ws hws
          rw [hskip2]
          have hitems := ihI x xt .nil rest (by
              have := hnd
              simp only [jNodup] at this
              exact this) (by
            have hlen : (dumps (.arr (.cons x xt))).length =
                (dumpsList (.cons x xt)).length + 2 := by
              simp [dumps]
            omega)
          split
          · rename_i r hr
            exact absurd (List.cons.inj hr).1 hrb
          · rw [← hin]
            exact hitems
      | obj kvs =>
        cases kvs with
        | nil =>
          have hskip : skipWs (dumps (.obj .nil) ++ rest) = '{' :: ('}' :: rest) := by
            rw [show dumps (.obj .nil) ++ rest = '{' :: '}' :: rest from rfl]
            exact skipWs_cons_not_ws (by decide)
          rw [parseVal_lbrace f hskip]
          rw [skipWs_cons_not_ws (by decide)]
          rfl
        | cons k v kt =>
          have hsplit : dumps (.obj (.cons k v kt)) ++ rest =
              '{' :: (dumpsKVs (.cons k v kt) ++ '}' :: rest) := by
            simp [dumps]
          have hskip : skipWs (dumps (.obj (.cons k v kt)) ++ rest) =
              '{' :: (dumpsKVs (.cons k v kt) ++ '}' :: rest) := by
            rw [hsplit]
            exact skipWs_cons_not_ws (by decide)
          rw [parseVal_lbrace f hskip]
          obtain ⟨w, hw⟩ := dumpsKVs_head k v kt
          have hin : dumpsKVs (.cons k v kt) ++ '}' :: rest =
              '"' :: ((escapeStr k ++ '"' :: ':' :: ' ' :: dumps v ++ w) ++ '}' :: rest) := by
            rw [hw]
            rfl
          have hskip2 : skipWs (dumpsKVs (.cons k v kt) ++ '}' :: rest) =
              '"' :: ((escapeStr k ++ '"' :: ':' :: ' ' :: dumps v ++ w) ++ '}' :: rest) := by
            rw [hin]
            exact skipWs_cons_not_ws (by decide)
          rw [hskip2]
          have hmem := ihM k v kt .nil rest (by
              have := hnd
              simp only [jNodup] at this
              exact this) (kvsDisj_nil _) (by
            have hlen : (dumps (.obj (.cons k v kt))).length =
                (dumpsKVs (.cons k v kt)).length + 2 := by
              simp [dumps]
            omega)
          split
          · rename_i r hr
            exact absurd (List.cons.inj hr).1 (by decide)
          · rw [← hin]
            exact hmem
    · intro k v kt acc rest hnd hdisj hf
      simp only [kvsNodup, Bool.and_eq_true, Bool.not_eq_true'] at hnd
      obtain ⟨⟨hfreshkt, hndv⟩, hndkt⟩ := hnd
      have hfreshacc : kvsHasKey acc k = false := by
        simp only [kvsDisj, Bool.and_eq_true, Bool.not_eq_true'] at hdisj
        exact hdisj.1
      cases kt with
      | nil =>
        have hT : dumpsKVs (.cons k v .nil) ++ '}' :: rest =
            '"' :: (escapeStr k ++ '"' :: ':' :: ' ' :: (dumps v ++ '}' :: rest)) := by
          simp [dumpsKVs]
        rw [hT, parseMembers_succ]
        simp only []
        rw [parseStr_escape k (by simp [List.length_append]; omega)]
        simp only []
        rw [skipWs_cons_not_ws (by decide)]
        simp only []
        rw [parseVal_skipws_eq f (skipWs_cons_ws (by decide))]
        rw [ihV v ('}' :: rest) hndv (Or.inr (Or.inl rfl)) (by
          have hlen : (dumpsKVs (JsonKVs.cons k v .nil)).length =
              (escapeStr k).length + (dumps v).length + 4 := by
            simp [dumpsKVs, List.length_append]
            omega
          omega)]
        simp only []
        rw [skipWs_cons_not_ws (by decide)]
        simp only []
        rw [kvsUpd_fresh hfreshacc]
      | cons k2 v2 kt2 =>
        have hT : dumpsKVs (.cons k v (.cons k2 v2 kt2)) ++ '}' :: rest =
            '"' :: (escapeStr k ++ '"' :: ':' :: ' ' ::
              (dumps v ++ ',' :: ' ' :: (dumpsKVs (.cons k2 v2 kt2) ++ '}' :: rest))) := by
          simp [dumpsKVs]
        rw [hT, parseMembers_succ]
        simp only []
        rw [parseStr_escape k (by simp [List.length_append]; omega)]
        simp only []
        rw [skipWs_cons_not_ws (by decide)]
        simp only []
        rw [parseVal_skipws_eq f (skipWs_cons_ws (by decide))]
        rw [ihV v (',' :: ' ' :: (dumpsKVs (.cons k2 v2 kt2) ++ '}' :: rest)) hndv
          (Or.inl rfl) (by
          have hlen : (dumpsKVs (JsonKVs.cons k v (.cons k2 v2 kt2))).length =
              (escapeStr k).length + (dumps v).length +
                (dumpsKVs (JsonKVs.cons k2 v2 kt2)).length + 6 := by
            simp [dumpsKVs, List.length_append]
            omega
          omega)]
        simp only []
        rw [skipWs_cons_not_ws (by decide)]
        simp only []
        obtain ⟨w2, hw2⟩ := dumpsKVs_head k2 v2 kt2
        have hskipr : skipWs (' ' :: (dumpsKVs (.cons k2 v2 kt2) ++ '}' :: rest)) =
            dumpsKVs (.cons k2 v2 kt2) ++ '}' :: rest := by
          rw [skipWs_cons_ws (by decide)]
          rw [show dumpsKVs (.cons k2 v2 kt2) ++ '}' :: rest =
            '"' :: ((escapeStr k2 ++ '"' :: ':' :: ' ' :: dumps v2 ++ w2) ++ '}' :: rest)
            from by rw [hw2]; rfl]
          exact skipWs_cons_not_ws (by decide)
        rw [hskipr]
        rw [ihM k2 v2 kt2 (kvsUpd acc k v) rest hndkt (by
            rw [kvsUpd_fresh hfreshacc]
            exact kvsDisj_shift hdisj hfreshkt) (by
          have hlen : (dumpsKVs (JsonKVs.cons k v (.cons k2 v2 kt2))).length =
              (escapeStr k).length + (dumps v).length +
                (dumpsKVs (JsonKVs.cons k2 v2 kt2)).length + 6 := by
            simp [dumpsKVs, List.length_append]
            omega
          omega)]
        rw [kvsUpd_fresh hfreshacc, kvsConcat_snoc]
    · intro x xt acc rest hnd hf
      simp only [jlNodup, Bool.and_eq_true] at hnd
      obtain ⟨hndx, hndxt⟩ := hnd
      rw [parseItems_succ]
      cases xt with
      | nil =>
        rw [show dumpsList (.cons x .nil) ++ ']' :: rest = dumps x ++ ']' :: rest
          from by simp [dumpsList]]
        rw [ihV x (']' :: rest) hndx (Or.inr (Or.inr rfl)) (by
          have hlen : (dumpsList (JsonList.cons x .nil)).length = (dumps x).length := by
            simp [dumpsList]
          omega)]
        simp only []
        rw [skipWs_cons_not_ws (by decide)]
        simp only []
        rw [jlAppend_concat]
      | cons x2 xt2 =>
        rw [show dumpsList (.cons x (.cons x2 xt2)) ++ ']' :: rest =
            dumps x ++ ',' :: ' ' :: (dumpsList (.cons x2 xt2) ++ ']' :: rest)
          from by simp [dumpsList]]
        rw [ihV x (',' :: ' ' :: (dumpsList (.cons x2 xt2) ++ ']' :: rest)) hndx
          (Or.inl rfl) (by
          have hlen : (dumpsList (JsonList.cons x (.cons x2 xt2))).length =
              (dumps x).length + 2 + (dumpsList (JsonList.cons x2 xt2)).length := by
            simp [dumpsList, List.length_append]
            omega
          omega)]
        simp only []
        rw [skipWs_cons_not_ws (by decide)]
        simp only []
        rw [parseItems_skipws_eq f (jlAppend acc x) (skipWs_cons_ws (by decide))]
        rw [ihI x2 xt2 (jlAppend acc x) rest hndxt (by
          have hlen : (dumpsList (JsonList.cons x (.cons x2 xt2))).length =
              (dumps x).length + 2 + (dumpsList (JsonList.cons x2 xt2)).length := by
            simp [dumpsList, List.length_append]
            omega
          omega)]
        rw [jlAppend_concat, jlConcat_snoc]

/-- `json.loads` recovers any value serialised by `json.dumps` whose dicts
have pairwise-distinct keys at every level. -/
theorem json_loads_dumps (X : Json) (h : jNodup X = true) :
    json_loads (dumps X) = some X := by
  have hv := (parse_dumps_rt (2 * (dumps X).length + 2)).1 X [] h trivial (le_refl _)
  rw [List.append_nil] at hv
  unfold json_loads
  rw [hv]
  rfl

theorem Seg1_append_noBrace {a l : List Char} (ha : noBrace a = true)
    (hl : Seg1 l) : Seg1 (a ++ l) := by
  induction a with
  | nil => exact hl
  | cons c t ih =>
    simp only [noBrace, List.all_cons, Bool.and_eq_true] at ha
    exact Seg1.chr ha.1 (ih ha.2)

theorem noBraceCh_of_digit {c : Char} (h : isDigitCh c = true) : noBraceCh c = true := by
  obtain ⟨h1, h2⟩ := isDigitCh_toNat h
  simp only [noBraceCh, Bool.and_eq_true, decide_eq_true_eq]
  constructor
  · rintro rfl
    exact absurd h2 (by decide)
  · rintro rfl
    exact absurd h2 (by decide)

theorem noBrace_intRepr (n : Int) : noBrace (intRepr n) = true := by
  have hdig : ∀ m : Nat, noBrace (natDigits m) = true := by
    intro m
    simp only [noBrace, List.all_eq_true]
    intro c hc
    exact noBraceCh_of_digit ((natDigits_spec m).1 c hc)
  unfold intRepr
  split
  · simp only [noBrace, List.all_cons, Bool.and_eq_true]
    exact ⟨by decide, by simpa [noBrace] using hdig (-n).toNat⟩
  · exact hdig n.toNat

theorem noBrace_hexCh (k : Nat) (hk : k < 16) : noBraceCh (hexCh k) = true := by
  revert hk
  revert k
  decide

theorem noBrace_escapeChar {c : Char} (h : noBraceCh c = true) :
    noBrace (escapeChar c) = true := by
  unfold escapeChar
  split_ifs with h1 h2 h3 h4 h5 h6 h7 h8
  · decide
  · decide
  · decide
  · decide
  · decide
  · decide
  · decide
  · simp only [noBrace, List.all_cons, List.all_nil, Bool.and_eq_true]
    refine ⟨by decide, by decide, by decide, by decide, ?_, ?_, trivial⟩
    · exact noBrace_hexCh _ (by omega)
    · exact noBrace_hexCh _ (Nat.mod_lt _ (by omega))
  · simp [noBrace, h]

theorem noBrace_escapeStr {s : List Char} (h : noBrace s = true) :
    noBrace (escapeStr s) = true := by
  induction s with
  | nil => decide
  | cons c t ih =>
    simp only [noBrace, List.all_cons, Bool.and_eq_true] at h
    simp only [escapeStr, noBrace, List.all_append, Bool.and_eq_true]
    exact ⟨noBrace_escapeChar h.1, by simpa [noBrace] using ih (by simpa [noBrace] using h.2)⟩

theorem noBrace_cons (c : Char) (l : List Char) :
    noBrace (c :: l) = (noBraceCh c && noBrace l) := rfl

theorem noBrace_append (a b : List Char) :
    noBrace (a ++ b) = (noBrace a && noBrace b) := by
  simp [noBrace, List.all_append]

mutual
theorem dumps_flat (v : Json) (hd : objDepth v = 0) (hb : strsBraceFree v = true) :
    noBrace (dumps v) = true := by
  cases v with
  | null => decide
  | bool b => cases b <;> decide
  | num n => exact noBrace_intRepr n
  | str s =>
    have hesc : noBrace (escapeStr s) = true :=
      noBrace_escapeStr hb
    simp only [dumps, noBrace_cons, noBrace_append, hesc]
    decide
  | arr xs =>
    have hxs := dumpsList_flat xs hd hb
    simp only [dumps, noBrace_cons, noBrace_append, hxs]
    decide
  | obj kvs =>
    simp only [objDepth] at hd
    exact absurd hd (by omega)
theorem dumpsList_flat (xs : JsonList) (hd : jlDepth xs = 0) (hb : jlBraceFree xs = true) :
    noBrace (dumpsList xs) = true := by
  cases xs with
  | nil => decide
  | cons h t =>
    simp only [jlDepth, Nat.max_eq_zero_iff] at hd
    simp only [jlBraceFree, Bool.and_eq_true] at hb
    cases t with
    | nil =>
      simpa [dumpsList] using dumps_flat h hd.1 hb.1
    | cons h2 t2 =>
      have hh := dumps_flat h hd.1 hb.1
      have ht := dumpsList_flat (.cons h2 t2) hd.2 hb.2
      simp only [dumpsList, noBrace_cons, noBrace_append, hh, ht]
      decide
theorem dumpsKVs_flat (kvs : JsonKVs) (hd : kvsDepth kvs = 0)
    (hb : kvsBraceFree kvs = true) : noBrace (dumpsKVs kvs) = true := by
  cases kvs with
  | nil => decide
  | cons k v t =>
    simp only [kvsDepth, Nat.max_eq_zero_iff] at hd
    simp only [kvsBraceFree, Bool.and_eq_true] at hb
    have hk : noBrace (escapeStr k) = true := noBrace_escapeStr hb.1.1
    have hv := dumps_flat v hd.1 hb.1.2
    cases t with
    | nil =>
      simp only [dumpsKVs, noBrace_cons, noBrace_append, hk, hv]
      decide
    | cons k2 v2 t2 =>
      have ht := dumpsKVs_flat (.cons k2 v2 t2) hd.2 hb.2
      simp only [dumpsKVs, noBrace_cons, noBrace_append, hk, hv, ht]
      decide
end

mutual
theorem dumps_seg (v : Json) (hd : objDepth v ≤ 1) (hb : strsBraceFree v = true)
    (tail : List Char) (ht : Seg1 tail) : Seg1 (dumps v ++ tail) := by
  cases v with
  | null => exact Seg1_append_noBrace (by decide) ht
  | bool b => exact Seg1_append_noBrace (by cases b <;> decide) ht
  | num n => exact Seg1_append_noBrace (noBrace_intRepr n) ht
  | str s => exact Seg1_append_noBrace (dumps_flat (.str s) rfl hb) ht
  | arr xs =>
    have hseg := dumpsList_seg xs hd hb (']' :: tail) (Seg1.chr (by decide) ht)
    rw [show dumps (.arr xs) ++ tail = '[' :: (dumpsList xs ++ ']' :: tail) from by
      simp [dumps]]
    exact Seg1.chr (by decide) hseg
  | obj kvs =>
    have hdep : kvsDepth kvs = 0 := by
      simp only [objDepth] at hd
      omega
    have hbody := dumpsKVs_flat kvs hdep hb
    rw [show dumps (.obj kvs) ++ tail = '{' :: (dumpsKVs kvs ++ '}' :: tail) from by
      simp [dumps]]
    exact Seg1.grp hbody ht
theorem dumpsList_seg (xs : JsonList) (hd : jlDepth xs ≤ 1) (hb : jlBraceFree xs = true)
    (tail : List Char) (ht : Seg1 tail) : Seg1 (dumpsList xs ++ tail) := by
  cases xs with
  | nil => exact ht
  | cons h t =>
    simp only [jlDepth, Nat.max_le] at hd
    simp only [jlBraceFree, Bool.and_eq_true] at hb
    cases t with
    | nil =>
      rw [show dumpsList (.cons h .nil) ++ tail = dumps h ++ tail from by simp [dumpsList]]
      exact dumps_seg h hd.1 hb.1 tail ht
    | cons h2 t2 =>
      have hrest := dumpsList_seg (.cons h2 t2) hd.2 hb.2 tail ht
      rw [show dumpsList (.cons h (.cons h2 t2)) ++ tail =
          dumps h ++ (',' :: ' ' :: (dumpsList (.cons h2 t2) ++ tail)) from by
        simp [dumpsList]]
      exact dumps_seg h hd.1 hb.1 _ (Seg1.chr (by decide) (Seg1.chr (by decide) hrest))
theorem dumpsKVs_seg (kvs : JsonKVs) (hd : kvsDepth kvs ≤ 1) (hb : kvsBraceFree kvs = true)
    (tail : List Char) (ht : Seg1 tail) : Seg1 (dumpsKVs kvs ++ tail) := by
  cases kvs with
  | nil => exact ht
  | cons k v t =>
    simp only [kvsDepth, Nat.max_le] at hd
    simp only [kvsBraceFree, Bool.and_eq_true] at hb
    have hk : noBrace (escapeStr k) = true := noBrace_escapeStr hb.1.1
    cases t with
    | nil =>
      rw [show dumpsKVs (.cons k v .nil) ++ tail =
          '"' :: (escapeStr k ++ '"' :: ':' :: ' ' :: (dumps v ++ tail)) from by
        simp [dumpsKVs]]
      exact Seg1.chr (by decide) (Seg1_append_noBrace hk (Seg1.chr (by decide)
        (Seg1.chr (by decide) (Seg1.chr (by decide)
          (dumps_seg v hd.1 hb.1.2 tail ht)))))
    | cons k2 v2 t2 =>
      have hrest := dumpsKVs_seg (.cons k2 v2 t2) hd.2 hb.2 tail ht
      rw [show dumpsKVs (.cons k v (.cons k2 v2 t2)) ++ tail =
          '"' :: (escapeStr k ++ '"' :: ':' :: ' ' ::
            (dumps v ++ ',' :: ' ' :: (dumpsKVs (.cons k2 v2 t2) ++ tail))) from by
        simp [dumpsKVs]]
      exact Seg1.chr (by decide) (Seg1_append_noBrace hk (Seg1.chr (by decide)
        (Seg1.chr (by decide) (Seg1.chr (by decide)
          (dumps_seg v hd.1 hb.1.2 _ (Seg1.chr (by decide)
            (Seg1.chr (by decide) hrest)))))))
end

theorem scanInner_noBrace {m : List Char} (hm : noBrace m = true) (s : List Char) :
    scanInner (m ++ '}' :: s) = some s := by
  induction m with
  | nil => simp [scanInner]
  | cons c t ih =>
    simp only [noBrace, List.all_cons, Bool.and_eq_true] at hm
    have h1 : c ≠ '}' := by
      simp only [noBraceCh, Bool.and_eq_true, decide_eq_true_eq] at hm
      exact hm.1.2
    have h2 : c ≠ '{' := by
      simp only [noBraceCh, Bool.and_eq_true, decide_eq_true_eq] at hm
      exact hm.1.1
    simp only [List.cons_append, scanInner, if_neg h1, if_neg h2]
    exact ih (by simpa [noBrace] using hm.2)

theorem scanBody_seg {body : List Char} (hs : Seg1 body) :
    ∀ (f : Nat) (r : List Char), body.length + 1 ≤ f →
      scanBody f (body ++ '}' :: r) = some ('}' :: r) := by
  induction hs with
  | nil =>
    intro f r hf
    obtain ⟨f1, rfl⟩ : ∃ f1, f = f1 + 1 := ⟨f - 1, by omega⟩
    simp [scanBody]
  | @chr c l hc hsl ih =>
    intro f r hf
    obtain ⟨f1, rfl⟩ : ∃ f1, f = f1 + 1 := ⟨f - 1, by omega⟩
    have h1 : c ≠ '}' := by
      simp only [noBraceCh, Bool.and_eq_true, decide_eq_true_eq] at hc
      exact hc.2
    have h2 : c ≠ '{' := by
      simp only [noBraceCh, Bool.and_eq_true, decide_eq_true_eq] at hc
      exact hc.1
    simp only [List.cons_append, scanBody, if_neg h1, if_neg h2]
    exact ih f1 r (by simp at hf; omega)
  | @grp m l hm hsl ih =>
    intro f r hf
    obtain ⟨f1, rfl⟩ : ∃ f1, f = f1 + 1 := ⟨f - 1, by omega⟩
    rw [show ('{' :: (m ++ '}' :: l)) ++ '}' :: r =
      '{' :: (m ++ '}' :: (l ++ '}' :: r)) from by simp]
    simp only [scanBody, if_neg (by decide : ¬('{' : Char) = '}'), if_pos rfl]
    rw [scanInner_noBrace hm]
    refine ih f1 r ?_
    simp only [List.length_cons, List.length_append] at hf
    omega

theorem reMatchAt_full {body : List Char} (hs : Seg1 body) :
    reMatchAt ('{' :: body ++ ['}']) = some ('{' :: body ++ ['}']) := by
  have hscan := scanBody_seg hs ((body ++ ['}']).length + 1) []
    (by simp [List.length_append])
  rw [show body ++ '}' :: ([] : List Char) = body ++ ['}'] from rfl] at hscan
  simp only [List.cons_append, reMatchAt]
  rw [hscan]
  simp

theorem pyStrip_noop {a b : Char} (m : List Char) (ha : pyWs a = false)
    (hb : pyWs b = false) : pyStrip (a :: m ++ [b]) = a :: m ++ [b] := by
  unfold pyStrip stripBy lstripBy rstripBy
  simp [List.dropWhile_cons, ha, hb]

theorem isPrefixOf_cons_ne {a b : Char} {p t : List Char} (h : ¬ a = b) :
    (a :: p).isPrefixOf (b :: t) = false := by
  show (a == b && p.isPrefixOf t) = false
  simp [h]

theorem startsHtmlDoc_lbrace (t : List Char) : startsHtmlDoc ('{' :: t) = false := by
  unfold startsHtmlDoc
  rw [show pyLstrip ('{' :: t) = '{' :: t from by
    simp [pyLstrip, lstripBy, List.dropWhile_cons, pyWs]]
  rw [show toLowerL ('{' :: t) = '{' :: toLowerL t from rfl]
  rw [show ("<!doctype".data) = '<' :: "!doctype".data from rfl]
  rw [show ("<html".data) = '<' :: "html".data from rfl]
  rw [isPrefixOf_cons_ne (by decide), isPrefixOf_cons_ne (by decide)]
  rfl

theorem reSearch_head {l m : List Char} {c : Char} (h : reMatchAt (c :: l) = some m) :
    reSearch (c :: l) = some (0, m) := by
  simp [reSearch, h]

theorem safe_json_parse_dumps_obj (kvs : JsonKVs)
    (hnd : jNodup (.obj kvs) = true)
    (hbf : strsBraceFree (.obj kvs) = true)
    (hdep : objDepth (.obj kvs) ≤ 2) :
    safe_json_parse (dumps (.obj kvs)) = .ok (.structured (.obj kvs)) := by
  have hshape : dumps (.obj kvs) = '{' :: dumpsKVs kvs ++ ['}'] := by
    simp [dumps]
  have hstrip : pyStrip (dumps (.obj kvs)) = dumps (.obj kvs) := by
    rw [hshape]
    exact pyStrip_noop _ (by decide) (by decide)
  have hne : (dumps (.obj kvs)).isEmpty = false := by
    rw [hshape]
    rfl
  have hfence : ("```".data).isPrefixOf (dumps (.obj kvs)) = false := by
    rw [hshape, show ("```".data) = '`' :: "``".data from rfl]
    exact isPrefixOf_cons_ne (by decide)
  have hdoc : startsHtmlDoc (dumps (.obj kvs)) = false := by
    rw [hshape]
    exact startsHtmlDoc_lbrace _
  have hseg : Seg1 (dumpsKVs kvs) := by
    have hdk : kvsDepth kvs ≤ 1 := by
      simp only [objDepth] at hdep
      omega
    have := dumpsKVs_seg kvs hdk hbf [] Seg1.nil
    simpa using this
  have hsearch : reSearch (dumps (.obj kvs)) = some (0, dumps (.obj kvs)) := by
    rw [hshape]
    exact reSearch_head (reMatchAt_full hseg)
  unfold safe_json_parse
  simp only [hstrip, hne, fenceStrip_of_not_fence hfence, hdoc, hsearch,
    Bool.false_eq_true, if_false]
  simp only [decodeCandidate, json_loads_dumps _ hnd]

/-- C3 (amended): the round trip holds for every JSON **object** whose dicts
have distinct keys, whose strings and keys are brace-free, and whose object
nesting is at most two deep (the candidate-span regex tolerates exactly one
level of inner braces): `safe_json_parse (dumps X) = ok (structured X)`.
Deeper nesting genuinely breaks the round trip (see the counterexample). -/
theorem extract_roundtrip_shallow (kvs : JsonKVs)
    (hnd : jNodup (.obj kvs) = true)
    (hbf : strsBraceFree (.obj kvs) = true)
    (hdep : objDepth (.obj kvs) ≤ 2) :
    safe_json_parse (dumps (.obj kvs)) = .ok (.structured (.obj kvs)) :=
  safe_json_parse_dumps_obj kvs hnd hbf hdep

/-- Witness for the amended C3 round trip at a concrete two-level object
`\x7b"k": [1, \x7b"m": "s"\x7d], "t": true\x7d`. -/
theorem extract_roundtrip_shallow_witness :
    safe_json_parse (dumps (Json.obj (.cons "k".data
        (.arr (.cons (.num 1) (.cons (.obj (.cons "m".data (.str "s".data) .nil)) .nil)))
        (.cons "t".data (.bool true) .nil)))) =
      .ok (.structured (Json.obj (.cons "k".data
        (.arr (.cons (.num 1) (.cons (.obj (.cons "m".data (.str "s".data) .nil)) .nil)))
        (.cons "t".data (.bool true) .nil)))) :=
  extract_roundtrip_shallow _ (by decide) (by decide) (by decide)

theorem fenced_input_shape (body : List Char) :
    ['`','`','`','j','s','o','n','\n'] ++ ('{' :: body ++ ['}']) ++ ['\n','`','`','`'] =
      '`' :: (['`','`','j','s','o','n','\n'] ++ ('{' :: body ++ ['}']) ++ ['\n','`','`']) ++
        ['`'] := by
  simp

theorem stripBackticks_json_fenced (body : List Char) :
    stripBackticks (['`','`','`','j','s','o','n','\n'] ++ ('{' :: body ++ ['}']) ++
      ['\n','`','`','`']) =
      'j' :: 's' :: 'o' :: 'n' :: '\n' :: (('{' :: body ++ ['}']) ++ ['\n']) := by
  unfold stripBackticks stripBy lstripBy rstripBy
  simp [List.dropWhile_cons, List.reverse_append]

theorem pyStrip_json_tagged (body : List Char) :
    pyStrip ('j' :: 's' :: 'o' :: 'n' :: '\n' :: (('{' :: body ++ ['}']) ++ ['\n'])) =
      'j' :: 's' :: 'o' :: 'n' :: '\n' :: ('{' :: body ++ ['}']) := by
  unfold pyStrip stripBy lstripBy rstripBy
  simp [List.dropWhile_cons, List.reverse_append, pyWs]

theorem fenceStrip_json_fenced (body : List Char) :
    fenceStrip (['`','`','`','j','s','o','n','\n'] ++ ('{' :: body ++ ['}']) ++
      ['\n','`','`','`']) = '{' :: body ++ ['}'] := by
  unfold fenceStrip
  rw [if_pos ?hpre]
  case hpre =>
    rw [show "```".data = '`' :: '`' :: '`' :: [] from rfl]
    simp [List.isPrefixOf]
  rw [stripBackticks_json_fenced, pyStrip_json_tagged]
  dsimp only
  rw [if_pos ?hjson]
  case hjson =>
    rw [show toLowerL ('j' :: 's' :: 'o' :: 'n' :: '\n' :: ('{' :: body ++ ['}'])) =
      'j' :: 's' :: 'o' :: 'n' :: '\n' :: toLowerL ('{' :: body ++ ['}']) from rfl]
    simp [List.isPrefixOf]
  rw [show ('j' :: 's' :: 'o' :: 'n' :: '\n' :: ('{' :: body ++ ['}'])).drop 4 =
    '\n'::('{' :: body ++ ['}']) from rfl]
  simp [pyLstrip, lstripBy, List.dropWhile_cons, pyWs]

/-- C7 counterexample: for the depth-three object
`\x7b"x": \x7b"y": \x7b"z": 2\x7d\x7d\x7d`, wrapping its serialized form in a
```json fence and extracting does not yield the object itself: the fence is
removed correctly, but the candidate-span regex then matches only the inner
object `\x7b"y": \x7b"z": 2\x7d\x7d`, so the claim fails for objects of
unrestricted nesting depth. -/
theorem fenced_roundtrip_depth_cx :
    safe_json_parse ("```json\n".data ++ dumps (Json.obj (.cons "x".data
        (.obj (.cons "y".data (.obj (.cons "z".data (.num 2) .nil)) .nil)) .nil)) ++
      "\n```".data) =
      .ok (.structured (.obj (.cons "y".data
        (.obj (.cons "z".data (.num 2) .nil)) .nil))) ∧
    Json.obj (.cons "y".data (.obj (.cons "z".data (.num 2) .nil)) .nil) ≠
      Json.obj (.cons "x".data
        (.obj (.cons "y".data (.obj (.cons "z".data (.num 2) .nil)) .nil)) .nil) := by
  decide

set_option maxHeartbeats 1000000 in
/-- C7 (amended): for every JSON object with distinct keys, brace-free
strings and keys, and object nesting at most two deep, extraction of the
```json-fenced serialization equals extraction of the unfenced text, and
both yield `Structured(X)`: the fence markers and the `json` tag are
removed exactly. -/
theorem fenced_extraction_eq_unfenced (kvs : JsonKVs)
    (hnd : jNodup (.obj kvs) = true)
    (hbf : strsBraceFree (.obj kvs) = true)
    (hdep : objDepth (.obj kvs) ≤ 2) :
    safe_json_parse ("```json\n".data ++ dumps (.obj kvs) ++ "\n```".data) =
      safe_json_parse (dumps (.obj kvs)) ∧
    safe_json_parse ("```json\n".data ++ dumps (.obj kvs) ++ "\n```".data) =
      .ok (.structured (.obj kvs)) := by
  have hshape : dumps (.obj kvs) = '{' :: dumpsKVs kvs ++ ['}'] := by
    simp [dumps]
  have hfenced : safe_json_parse ("```json\n".data ++ dumps (.obj kvs) ++ "\n```".data) =
      .ok (.structured (.obj kvs)) := by
    rw [hshape, show "```json\n".data = ['`','`','`','j','s','o','n','\n'] from rfl,
      show "\n```".data = ['\n','`','`','`'] from rfl]
    have hstrip : pyStrip (['`','`','`','j','s','o','n','\n'] ++
        ('{' :: dumpsKVs kvs ++ ['}']) ++ ['\n','`','`','`']) =
        ['`','`','`','j','s','o','n','\n'] ++ ('{' :: dumpsKVs kvs ++ ['}']) ++
          ['\n','`','`','`'] := by
      rw [fenced_input_shape]
      exact pyStrip_noop _ (by decide) (by decide)
    have hne : (['`','`','`','j','s','o','n','\n'] ++ ('{' :: dumpsKVs kvs ++ ['}']) ++
        ['\n','`','`','`']).isEmpty = false := rfl
    have hseg : Seg1 (dumpsKVs kvs) := by
      have hdk : kvsDepth kvs ≤ 1 := by
        simp only [objDepth] at hdep
        omega
      have := dumpsKVs_seg kvs hdk hbf [] Seg1.nil
      simpa using this
    have hsearch : reSearch ('{' :: dumpsKVs kvs ++ ['}']) =
        some (0, '{' :: dumpsKVs kvs ++ ['}']) :=
      reSearch_head (reMatchAt_full hseg)
    unfold safe_json_parse
    simp only [hstrip, hne, fenceStrip_json_fenced, startsHtmlDoc_lbrace,
      Bool.false_eq_true, if_false, hsearch]
    have hload : json_loads ('{' :: dumpsKVs kvs ++ ['}']) = some (.obj kvs) := by
      rw [← hshape]
      exact json_loads_dumps _ hnd
    simp only [decodeCandidate, hload]
    rw [if_neg (by simp [startsHtmlDoc_lbrace])]
  exact ⟨hfenced.trans (safe_json_parse_dumps_obj kvs hnd hbf hdep).symm, hfenced⟩

/-- Witness for the amended C7 at the concrete object
`\x7b"p": \x7b"q": 3\x7d\x7d` wrapped in a ```json fence. -/
theorem fenced_extraction_eq_unfenced_witness :
    safe_json_parse ("```json\n".data ++ dumps (Json.obj (.cons "p".data
        (.obj (.cons "q".data (.num 3) .nil)) .nil)) ++ "\n```".data) =
      safe_json_parse (dumps (Json.obj (.cons "p".data
        (.obj (.cons "q".data (.num 3) .nil)) .nil))) ∧
    safe_json_parse ("```json\n".data ++ dumps (Json.obj (.cons "p".data
        (.obj (.cons "q".data (.num 3) .nil)) .nil)) ++ "\n```".data) =
      .ok (.structured (Json.obj (.cons "p".data
        (.obj (.cons "q".data (.num 3) .nil)) .nil))) :=
  fenced_extraction_eq_unfenced _ (by decide) (by decide) (by decide)

theorem findSub_isSome_of_occurs {pat : List Char} :
    ∀ {l : List Char} {j : Nat}, pat <+: l.drop j → (findSub l pat).isSome = true := by
  intro l
  induction l with
  | nil =>
    intro j hocc
    unfold findSub
    rw [if_pos (List.isPrefixOf_iff_prefix.mpr (by
      cases j <;> simpa using hocc))]
    rfl
  | cons c t ih =>
    intro j hocc
    unfold findSub
    split
    · rfl
    · cases j with
      | zero =>
        rename_i hp
        exact absurd (List.isPrefixOf_iff_prefix.mpr (by simpa using hocc)) (by
          simp [hp])
      | succ j2 =>
        have := ih (by simpa using hocc)
        cases hfs : findSub t pat with
        | none => rw [hfs] at this; exact absurd this (by simp)
        | some k => simp [hfs]

theorem containsSub_occurs_iff {l pat : List Char} :
    containsSub l pat = true ↔ pat <:+: l := by
  constructor
  · intro h
    unfold containsSub at h
    cases hfs : findSub l pat with
    | none => rw [hfs] at h; exact absurd h (by simp)
    | some i =>
      obtain ⟨w, hw⟩ := findSub_sound hfs
      refine ⟨l.take i, l.drop (i + pat.length), ?_⟩
      have hdrop : l.drop (i + pat.length) = w := by
        rw [← List.drop_drop, ← hw, List.drop_left]
      rw [hdrop, List.append_assoc, hw, List.take_append_drop]
  · rintro ⟨u, v, huv⟩
    unfold containsSub
    exact @findSub_isSome_of_occurs pat l u.length (by
      rw [← huv, List.append_assoc, List.drop_left]
      exact ⟨v, rfl⟩)

theorem infix_append_left {a b nd : List Char} (h : nd <:+: a) : nd <:+: a ++ b := by
  obtain ⟨u, v, huv⟩ := h
  exact ⟨u, v ++ b, by rw [← huv]; simp⟩

theorem infix_append_right {a b nd : List Char} (h : nd <:+: b) : nd <:+: a ++ b := by
  obtain ⟨u, v, huv⟩ := h
  exact ⟨a ++ u, v, by rw [← huv]; simp⟩

theorem infix_append_cases {a b nd : List Char} (h : nd <:+: a ++ b) :
    nd <:+: a ∨ nd <:+: b ∨
      ∃ k, 0 < k ∧ k < nd.length ∧ nd.take k <:+ a ∧ nd.drop k <+: b := by
  obtain ⟨u, v, huv⟩ := h
  have h1 : u ++ (nd ++ v) = a ++ b := by rw [← huv]; simp
  rcases List.append_eq_append_iff.mp h1 with ⟨c, hc1, hc2⟩ | ⟨c, hc1, hc2⟩
  · rcases List.append_eq_append_iff.mp hc2 with ⟨d, hd1, hd2⟩ | ⟨d, hd1, hd2⟩
    · exact Or.inl ⟨u, d, by rw [hc1, hd1]; simp⟩
    · by_cases hc0 : c = []
      · subst hc0
        exact Or.inr (Or.inl ⟨[], v, by simp [hd1, hd2]⟩)
      · by_cases hd0 : d = []
        · subst hd0
          rw [List.append_nil] at hd1
          exact Or.inl ⟨u, [], by rw [hc1, ← hd1]; simp⟩
        · refine Or.inr (Or.inr ⟨c.length, ?_, ?_, ?_, ?_⟩)
          · cases c with
            | nil => exact absurd rfl hc0
            | cons x xs => simp
          · rw [hd1]
            simp only [List.length_append]
            cases d with
            | nil => exact absurd rfl hd0
            | cons x xs => simp
          · rw [show nd.take c.length = c from by
              rw [hd1, List.take_left]]
            exact ⟨u, hc1.symm⟩
          · rw [show nd.drop c.length = d from by
              rw [hd1, List.drop_left]]
            exact ⟨v, hd2.symm⟩
  · exact Or.inr (Or.inl ⟨c, v, by rw [hc2]; simp⟩)

theorem toLowerL_append (a b : List Char) :
    toLowerL (a ++ b) = toLowerL a ++ toLowerL b := List.map_append lowerCh a b

theorem infix_toLower {a nd : List Char} (h : nd <:+: a) :
    toLowerL nd <:+: toLowerL a := by
  obtain ⟨u, v, huv⟩ := h
  exact ⟨toLowerL u, toLowerL v, by rw [← huv]; simp [toLowerL]⟩

theorem containsSub_append_left {a b nd : List Char} (h : containsSub a nd = true) :
    containsSub (a ++ b) nd = true :=
  containsSub_occurs_iff.mpr (infix_append_left (containsSub_occurs_iff.mp h))

theorem containsSub_append_right {a b nd : List Char} (h : containsSub b nd = true) :
    containsSub (a ++ b) nd = true :=
  containsSub_occurs_iff.mpr (infix_append_right (containsSub_occurs_iff.mp h))

theorem containsSub_append_neg {a b nd : List Char}
    (ha : containsSub a nd = false) (hb : containsSub b nd = false)
    (hstr : ∀ k, k < nd.length → 0 < k → ¬ nd.take k <:+ a) :
    containsSub (a ++ b) nd = false := by
  cases hc : containsSub (a ++ b) nd with
  | false => rfl
  | true =>
    rcases infix_append_cases (containsSub_occurs_iff.mp hc) with h | h | ⟨k, hk0, hkl, hks, _⟩
    · exact absurd (containsSub_occurs_iff.mpr h) (by simp [ha])
    · exact absurd (containsSub_occurs_iff.mpr h) (by simp [hb])
    · exact absurd hks (hstr k hkl hk0)

theorem findSub_eq_none_iff {l pat : List Char} :
    findSub l pat = none ↔ containsSub l pat = false := by
  unfold containsSub
  cases findSub l pat <;> simp

theorem replaceFirstL_none {l pat rep : List Char} (h : containsSub l pat = false) :
    replaceFirstL l pat rep = l := by
  unfold replaceFirstL
  rw [findSub_eq_none_iff.mpr h]

theorem replaceFirstL_decomp {l pat rep : List Char} {i : Nat}
    (h : findSub l pat = some i) :
    ∃ a b, l = a ++ pat ++ b ∧ replaceFirstL l pat rep = a ++ rep ++ b := by
  obtain ⟨w, hw⟩ := findSub_sound h
  have hdrop : l.drop (i + pat.length) = w := by
    rw [← List.drop_drop, ← hw, List.drop_left]
  refine ⟨l.take i, l.drop (i + pat.length), ?_, ?_⟩
  · rw [hdrop, List.append_assoc, hw, List.take_append_drop]
  · unfold replaceFirstL
    rw [h]

theorem contains_insert_preserved {a mid b endpat nd : List Char}
    (hend : endpat <:+ a)
    (hk1 : ∀ k, k < nd.length → 0 < k → k ≤ endpat.length → ¬ nd.take k <:+ endpat)
    (hk2 : ∀ k, k < nd.length → endpat.length < k → ¬ endpat <:+ nd.take k)
    (h : nd <:+: a ++ b) : nd <:+: a ++ (mid ++ b) := by
  rcases infix_append_cases h with h1 | h1 | ⟨k, hk0, hkl, hks, _⟩
  · exact infix_append_left h1
  · exact infix_append_right (infix_append_right h1)
  · exfalso
    rcases le_or_lt k endpat.length with hle | hlt
    · exact hk1 k hkl hk0 hle (List.suffix_of_suffix_length_le hks hend
        (by simp [List.length_take]; omega))
    · exact hk2 k hkl hlt (List.suffix_of_suffix_length_le hend hks
        (by simp [List.length_take]; omega))

theorem contains_upper_lower {html P p : List Char} (hlow : toLowerL P = p)
    (h : containsSub html P = true) : containsSub (toLowerL html) p = true := by
  have hinf := infix_toLower (containsSub_occurs_iff.mp h)
  rw [hlow] at hinf
  exact containsSub_occurs_iff.mpr hinf

theorem enforce_noop_of_present {html : List Char}
    (hvp : containsSub (toLowerL html) "<meta name=\"viewport\"".data = true)
    (hdt : containsSub (toLowerL html) "<!doctype".data = true) :
    enforce_minimum_requirements html = html := by
  unfold enforce_minimum_requirements
  simp [hvp, hdt]

theorem enforce_noop_noinsert {html : List Char}
    (hdt : containsSub (toLowerL html) "<!doctype".data = true)
    (hnoop :
      (containsSub (toLowerL html) "<head>".data = true ∧
        containsSub html "<head>".data = false) ∨
      (containsSub (toLowerL html) "<head>".data = false ∧
        containsSub html "<HEAD>".data = false ∧
        containsSub (toLowerL html) "<html>".data = true ∧
        containsSub html "<html>".data = false) ∨
      (containsSub (toLowerL html) "<head>".data = false ∧
        containsSub html "<HEAD>".data = false ∧
        containsSub (toLowerL html) "<html>".data = false ∧
        containsSub html "<HTML>".data = false)) :
    enforce_minimum_requirements html = html := by
  unfold enforce_minimum_requirements
  rcases hnoop with ⟨h1, h2⟩ | ⟨h1, h2, h3, h4⟩ | ⟨h1, h2, h3, h4⟩
  · simp [hdt, h1, replaceFirstL_none h2]
  · simp [hdt, h1, h2, h3, replaceFirstL_none h4]
  · simp [hdt, h1, h2, h3, h4]

theorem enforce_prepend_noinsert {html : List Char}
    (hdt : containsSub (toLowerL html) "<!doctype".data = false)
    (hnoop :
      (containsSub (toLowerL html) "<head>".data = true ∧
        containsSub html "<head>".data = false) ∨
      (containsSub (toLowerL html) "<head>".data = false ∧
        containsSub html "<HEAD>".data = false ∧
        containsSub (toLowerL html) "<html>".data = true ∧
        containsSub html "<html>".data = false) ∨
      (containsSub (toLowerL html) "<head>".data = false ∧
        containsSub html "<HEAD>".data = false ∧
        containsSub (toLowerL html) "<html>".data = false ∧
        containsSub html "<HTML>".data = false)) :
    enforce_minimum_requirements html = "<!DOCTYPE html>\n".data ++ html := by
  unfold enforce_minimum_requirements
  rcases hnoop with ⟨h1, h2⟩ | ⟨h1, h2, h3, h4⟩ | ⟨h1, h2, h3, h4⟩
  · simp [hdt, h1, replaceFirstL_none h2]
  · simp [hdt, h1, h2, h3, replaceFirstL_none h4]
  · simp [hdt, h1, h2, h3, h4]

theorem enforce_after_prepend_noinsert {html : List Char}
    (hnoop :
      (containsSub (toLowerL html) "<head>".data = true ∧
        containsSub html "<head>".data = false) ∨
      (containsSub (toLowerL html) "<head>".data = false ∧
        containsSub html "<HEAD>".data = false ∧
        containsSub (toLowerL html) "<html>".data = true ∧
        containsSub html "<html>".data = false) ∨
      (containsSub (toLowerL html) "<head>".data = false ∧
        containsSub html "<HEAD>".data = false ∧
        containsSub (toLowerL html) "<html>".data = false ∧
        containsSub html "<HTML>".data = false)) :
    enforce_minimum_requirements ("<!DOCTYPE html>\n".data ++ html) =
      "<!DOCTYPE html>\n".data ++ html := by
  have hdt2 : containsSub (toLowerL ("<!DOCTYPE html>\n".data ++ html))
      "<!doctype".data = true := by
    rw [toLowerL_append]
    exact containsSub_append_left (by decide)
  rcases hnoop with ⟨h1, h2⟩ | ⟨h1, h2, h3, h4⟩ | ⟨h1, h2, h3, h4⟩
  · refine enforce_noop_noinsert hdt2 (Or.inl ⟨?_, ?_⟩)
    · rw [toLowerL_append]
      exact containsSub_append_right h1
    · exact containsSub_append_neg (by decide) h2 (by decide)
  · refine enforce_noop_noinsert hdt2 (Or.inr (Or.inl ⟨?_, ?_, ?_, ?_⟩))
    · rw [toLowerL_append]
      exact containsSub_append_neg (by decide) h1 (by decide)
    · exact containsSub_append_neg (by decide) h2 (by decide)
    · rw [toLowerL_append]
      exact containsSub_append_right h3
    · exact containsSub_append_neg (by decide) h4 (by decide)
  · refine enforce_noop_noinsert hdt2 (Or.inr (Or.inr ⟨?_, ?_, ?_, ?_⟩))
    · rw [toLowerL_append]
      exact containsSub_append_neg (by decide) h1 (by decide)
    · exact containsSub_append_neg (by decide) h2 (by decide)
    · rw [toLowerL_append]
      exact containsSub_append_neg (by decide) h3 (by decide)
    · exact containsSub_append_neg (by decide) h4 (by decide)

set_option maxHeartbeats 1000000 in
/-- C10: `enforce_minimum_requirements` is idempotent — applying it twice
equals applying it once — and its output always contains the substring
`<!doctype` case-insensitively (the doctype line is prepended whenever the
lower-cased input lacks it, and every transformation preserves an existing
occurrence). -/
theorem enforce_idempotent_and_doctype (html : List Char) :
    enforce_minimum_requirements (enforce_minimum_requirements html) =
      enforce_minimum_requirements html ∧
    containsSub (toLowerL (enforce_minimum_requirements html))
      "<!doctype".data = true := by
  cases hvp : containsSub (toLowerL html) "<meta name=\"viewport\"".data with
  | true =>
    cases hdt : containsSub (toLowerL html) "<!doctype".data with
    | true =>
      have h1 : enforce_minimum_requirements html = html :=
        enforce_noop_of_present hvp hdt
      rw [h1]
      exact ⟨h1, hdt⟩
    | false =>
      have h1 : enforce_minimum_requirements html = "<!DOCTYPE html>\n".data ++ html := by
        unfold enforce_minimum_requirements
        simp [hvp, hdt]
      rw [h1]
      refine ⟨enforce_noop_of_present ?_ ?_, ?_⟩
      · rw [toLowerL_append]
        exact containsSub_append_right hvp
      · rw [toLowerL_append]
        exact containsSub_append_left (by decide)
      · rw [toLowerL_append]
        exact containsSub_append_left (by decide)
  | false =>
    cases hhd : containsSub (toLowerL html) "<head>".data with
    | true =>
      cases hfind : findSub html "<head>".data with
      | none =>
        have hnone := findSub_eq_none_iff.mp hfind
        cases hdt : containsSub (toLowerL html) "<!doctype".data with
        | true =>
          have h1 := enforce_noop_noinsert hdt (Or.inl ⟨hhd, hnone⟩)
          rw [h1]
          exact ⟨h1, hdt⟩
        | false =>
          have h1 := enforce_prepend_noinsert hdt (Or.inl ⟨hhd, hnone⟩)
          rw [h1]
          refine ⟨enforce_after_prepend_noinsert (Or.inl ⟨hhd, hnone⟩), ?_⟩
          rw [toLowerL_append]
          exact containsSub_append_left (by decide)
      | some i =>
        obtain ⟨a, b, hdec, hrep⟩ := @replaceFirstL_decomp html "<head>".data
          ("<head>\n    ".data ++ viewportTag) i hfind
        have hvp1 : containsSub
            (toLowerL (a ++ ("<head>\n    ".data ++ viewportTag) ++ b))
            "<meta name=\"viewport\"".data = true := by
          refine containsSub_occurs_iff.mpr ?_
          have hseg : ("<head>\n    ".data ++ viewportTag) <:+:
              a ++ ("<head>\n    ".data ++ viewportTag) ++ b := ⟨a, b, rfl⟩
          have h3 := List.IsInfix.trans (show "<meta name=\"viewport\"".data <:+:
            "<head>\n    ".data ++ viewportTag from by decide) hseg
          have h4 := infix_toLower h3
          rwa [show toLowerL "<meta name=\"viewport\"".data =
            "<meta name=\"viewport\"".data from rfl] at h4
        cases hdt : containsSub (toLowerL html) "<!doctype".data with
        | true =>
          have h1 : enforce_minimum_requirements html =
              replaceFirstL html "<head>".data ("<head>\n    ".data ++ viewportTag) := by
            unfold enforce_minimum_requirements
            simp [hvp, hhd, hdt]
          have hdt1 : containsSub
              (toLowerL (a ++ ("<head>\n    ".data ++ viewportTag) ++ b))
              "<!doctype".data = true := by
            have h0 : "<!doctype".data <:+: toLowerL (a ++ "<head>".data) ++ toLowerL b := by
              have hx := containsSub_occurs_iff.mp hdt
              rw [hdec, show a ++ "<head>".data ++ b = (a ++ "<head>".data) ++ b from by
                simp, toLowerL_append] at hx
              exact hx
            have hend : "<head>".data <:+ toLowerL (a ++ "<head>".data) := by
              rw [toLowerL_append, show toLowerL "<head>".data = "<head>".data from rfl]
              exact List.suffix_append _ _
            have h2 := @contains_insert_preserved (toLowerL (a ++ "<head>".data))
              (toLowerL ("\n    ".data ++ viewportTag)) (toLowerL b)
              "<head>".data "<!doctype".data hend (by decide) (by decide) h0
            refine containsSub_occurs_iff.mpr ?_
            rw [show a ++ ("<head>\n    ".data ++ viewportTag) ++ b =
                (a ++ "<head>".data) ++ (("\n    ".data ++ viewportTag) ++ b) from by
              rw [show "<head>\n    ".data = "<head>".data ++ "\n    ".data from rfl]
              simp]
            rw [toLowerL_append]
            rw [← toLowerL_append] at h2
            exact h2
          rw [h1, hrep]
          exact ⟨enforce_noop_of_present hvp1 hdt1, hdt1⟩
        | false =>
          have h1 : enforce_minimum_requirements html =
              "<!DOCTYPE html>\n".data ++
                replaceFirstL html "<head>".data ("<head>\n    ".data ++ viewportTag) := by
            unfold enforce_minimum_requirements
            simp [hvp, hhd, hdt]
          have hvp2 : containsSub (toLowerL ("<!DOCTYPE html>\n".data ++
              (a ++ ("<head>\n    ".data ++ viewportTag) ++ b)))
              "<meta name=\"viewport\"".data = true := by
            rw [toLowerL_append]
            exact containsSub_append_right hvp1
          have hdt2 : containsSub (toLowerL ("<!DOCTYPE html>\n".data ++
              (a ++ ("<head>\n    ".data ++ viewportTag) ++ b)))
              "<!doctype".data = true := by
            rw [toLowerL_append]
            exact containsSub_append_left (by decide)
          rw [h1, hrep]
          exact ⟨enforce_noop_of_present hvp2 hdt2, hdt2⟩
    | false =>
      cases hHD : containsSub html "<HEAD>".data with
      | true =>
        exact absurd (contains_upper_lower
          (show toLowerL "<HEAD>".data = "<head>".data from rfl) hHD) (by simp [hhd])
      | false =>
        cases hht : containsSub (toLowerL html) "<html>".data with
        | true =>
          cases hfind : findSub html "<html>".data with
          | none =>
            have hnone := findSub_eq_none_iff.mp hfind
            cases hdt : containsSub (toLowerL html) "<!doctype".data with
            | true =>
              have h1 := enforce_noop_noinsert hdt (Or.inr (Or.inl ⟨hhd, hHD, hht, hnone⟩))
              rw [h1]
              exact ⟨h1, hdt⟩
            | false =>
              have h1 := enforce_prepend_noinsert hdt (Or.inr (Or.inl ⟨hhd, hHD, hht, hnone⟩))
              rw [h1]
              refine ⟨enforce_after_prepend_noinsert (Or.inr (Or.inl ⟨hhd, hHD, hht, hnone⟩)), ?_⟩
              rw [toLowerL_append]
              exact containsSub_append_left (by decide)
          | some i =>
            obtain ⟨a, b, hdec, hrep⟩ := @replaceFirstL_decomp html "<html>".data
              ("<html>\n<head>\n    ".data ++ viewportTag ++ "\n</head>".data) i hfind
            have hvp1 : containsSub
                (toLowerL (a ++ ("<html>\n<head>\n    ".data ++ viewportTag ++
                  "\n</head>".data) ++ b))
                "<meta name=\"viewport\"".data = true := by
              refine containsSub_occurs_iff.mpr ?_
              have hseg : ("<html>\n<head>\n    ".data ++ viewportTag ++
                  "\n</head>".data) <:+:
                  a ++ ("<html>\n<head>\n    ".data ++ viewportTag ++
                    "\n</head>".data) ++ b := ⟨a, b, rfl⟩
              have h3 := List.IsInfix.trans (show "<meta name=\"viewport\"".data <:+:
                "<html>\n<head>\n    ".data ++ viewportTag ++ "\n</head>".data
                from by decide) hseg
              have h4 := infix_toLower h3
              rwa [show toLowerL "<meta name=\"viewport\"".data =
                "<meta name=\"viewport\"".data from rfl] at h4
            cases hdt : containsSub (toLowerL html) "<!doctype".data with
            | true =>
              have h1 : enforce_minimum_requirements html =
                  replaceFirstL html "<html>".data ("<html>\n<head>\n    ".data ++
                    viewportTag ++ "\n</head>".data) := by
                unfold enforce_minimum_requirements
                simp [hvp, hhd, hHD, hht, hdt]
              have hdt1 : containsSub
                  (toLowerL (a ++ ("<html>\n<head>\n    ".data ++ viewportTag ++
                    "\n</head>".data) ++ b))
                  "<!doctype".data = true := by
                have h0 : "<!doctype".data <:+:
                    toLowerL (a ++ "<html>".data) ++ toLowerL b := by
                  have hx := containsSub_occurs_iff.mp hdt
                  rw [hdec, show a ++ "<html>".data ++ b = (a ++ "<html>".data) ++ b from by
                    simp, toLowerL_append] at hx
                  exact hx
                have hend : "<html>".data <:+ toLowerL (a ++ "<html>".data) := by
                  rw [toLowerL_append, show toLowerL "<html>".data = "<html>".data from rfl]
                  exact List.suffix_append _ _
                have h2 := @contains_insert_preserved (toLowerL (a ++ "<html>".data))
                  (toLowerL ("\n<head>\n    ".data ++ (viewportTag ++ "\n</head>".data)))
                  (toLowerL b) "<html>".data "<!doctype".data hend
                  (by decide) (by decide) h0
                refine containsSub_occurs_iff.mpr ?_
                rw [show a ++ ("<html>\n<head>\n    ".data ++ viewportTag ++
                    "\n</head>".data) ++ b =
                    (a ++ "<html>".data) ++ (("\n<head>\n    ".data ++
                      (viewportTag ++ "\n</head>".data)) ++ b) from by
                  rw [show "<html>\n<head>\n    ".data =
                    "<html>".data ++ "\n<head>\n    ".data from rfl]
                  simp]
                rw [toLowerL_append]
                rw [← toLowerL_append] at h2
                exact h2
              rw [h1, hrep]
              exact ⟨enforce_noop_of_present hvp1 hdt1, hdt1⟩
            | false =>
              have h1 : enforce_minimum_requirements html =
                  "<!DOCTYPE html>\n".data ++
                    replaceFirstL html "<html>".data ("<html>\n<head>\n    ".data ++
                      viewportTag ++ "\n</head>".data) := by
                unfold enforce_minimum_requirements
                simp [hvp, hhd, hHD, hht, hdt]
              have hvp2 : containsSub (toLowerL ("<!DOCTYPE html>\n".data ++
                  (a ++ ("<html>\n<head>\n    ".data ++ viewportTag ++
                    "\n</head>".data) ++ b)))
                  "<meta name=\"viewport\"".data = true := by
                rw [toLowerL_append]
                exact containsSub_append_right hvp1
              have hdt2 : containsSub (toLowerL ("<!DOCTYPE html>\n".data ++
                  (a ++ ("<html>\n<head>\n    ".data ++ viewportTag ++
                    "\n</head>".data) ++ b)))
                  "<!doctype".data = true := by
                rw [toLowerL_append]
                exact containsSub_append_left (by decide)
              rw [h1, hrep]
              exact ⟨enforce_noop_of_present hvp2 hdt2, hdt2⟩
        | false =>
          cases hHT : containsSub html "<HTML>".data with
          | true =>
            exact absurd (contains_upper_lower
              (show toLowerL "<HTML>".data = "<html>".data from rfl) hHT) (by simp [hht])
          | false =>
            cases hdt : containsSub (toLowerL html) "<!doctype".data with
            | true =>
              have h1 := enforce_noop_noinsert hdt (Or.inr (Or.inr ⟨hhd, hHD, hht, hHT⟩))
              rw [h1]
              exact ⟨h1, hdt⟩
            | false =>
              have h1 := enforce_prepend_noinsert hdt (Or.inr (Or.inr ⟨hhd, hHD, hht, hHT⟩))
              rw [h1]
              refine ⟨enforce_after_prepend_noinsert (Or.inr (Or.inr ⟨hhd, hHD, hht, hHT⟩)), ?_⟩
              rw [toLowerL_append]
              exact containsSub_append_left (by decide)
